import Mathlib

/-!
Verification development for the iterative-designer repository.

The Python sources are shallowly embedded as Lean definitions:

* `src/agent/abstracted_agent.py` — `BaseAgent.__init__` keyword checking,
  `read_file`, `write_file`, `run_terminal` (with a small matcher for the
  exact forbidden regular expressions).
* `src/agent/agent_pipeline.py` — the per-run pipeline phases and
  `run_full_pipeline`, over an opaque planner oracle (the literal prompt
  texts sent to the planner are an excluded external boundary and are not
  reproduced; they never influence control flow in the embedding).
* `src/orchestrator/ochestrator.py` — `_synthesize_improvements`.
* `src/orchestrator/checkpoint.py` — `save_snapshot` / `revert_snapshot`
  over an explicit file-tree model.
* `src/orchestrator/experience_pool.py` — the store readers and
  `update_hypothesis`, over store contents modelled as optional file
  contents plus parsed JSON values.

Python JSON values are modelled by `JVal`, with numbers as exact rationals
(the claims only compare small decimal literals, where float ordering
coincides with rational ordering).  `json.loads` is modelled by
`json_loads`, a fuel-indexed recursive-descent parser.
-/

/-- Characters treated as whitespace by Python `str.strip` / `\s` (ASCII). -/
def isSpaceChar (c : Char) : Bool :=
  c == ' ' || c == '\t' || c == '\n' || c == '\r' || c == Char.ofNat 11 || c == Char.ofNat 12

/-- Word characters for the regex `\b` word boundary (`[a-zA-Z0-9_]`). -/
def isWordChar (c : Char) : Bool :=
  ('a' ≤ c && c ≤ 'z') || ('A' ≤ c && c ≤ 'Z') || ('0' ≤ c && c ≤ '9') || c == '_'

/-- ASCII letters, for the regex class `[a-zA-Z]`. -/
def isAsciiLetterChar (c : Char) : Bool :=
  ('a' ≤ c && c ≤ 'z') || ('A' ≤ c && c ≤ 'Z')

/-- Decimal digits. -/
def isDigitChar (c : Char) : Bool :=
  '0' ≤ c && c ≤ '9'

/-- The opening brace character, written via its code point. -/
def lbraceChar : Char := Char.ofNat 123

/-- The closing brace character, written via its code point. -/
def rbraceChar : Char := Char.ofNat 125

/-- Does the first list occur as a leading segment of the second list? -/
def leadsList : List Char → List Char → Bool
  | [], _ => true
  | _ :: _, [] => false
  | a :: as, b :: bs => a == b && leadsList as bs

/-- Does the first list occur contiguously anywhere inside the second list?
Mirrors the Python substring test `pat in s`. -/
def infixAt (pat : List Char) : List Char → Bool
  | [] => leadsList pat []
  | c :: cs => leadsList pat (c :: cs) || infixAt pat cs

/-- Python `pat in s` on strings. -/
def strIn (pat s : String) : Bool := infixAt pat.data s.data

/-- Python `str.strip()` (whitespace strip on both ends). -/
def pyStrip (s : String) : String :=
  String.mk (((s.data.dropWhile isSpaceChar).reverse.dropWhile isSpaceChar).reverse)

/-- Python `s[:n]` on strings. -/
def pyTakeStr (n : Nat) (s : String) : String := String.mk (s.data.take n)

/-- Strict lexicographic order on character lists by code point, as Python
compares strings. -/
def lexLt : List Char → List Char → Bool
  | [], [] => false
  | [], _ :: _ => true
  | _ :: _, [] => false
  | a :: as, b :: bs => a.toNat < b.toNat || (a == b && lexLt as bs)

/-- Python `a < b` on strings. -/
def strLt (a b : String) : Bool := lexLt a.data b.data

/-- Python `s.startswith(pre)`. -/
def pyStartsWith (s pre : String) : Bool := leadsList pre.data s.data

/-- Index of the first occurrence of a character (Python `str.index`). -/
def firstIdx (c : Char) : List Char → Option Nat
  | [] => none
  | x :: xs => if x == c then some 0 else (firstIdx c xs).map (· + 1)

/-- Index of the last occurrence of a character (Python `str.rindex`). -/
def lastIdx (c : Char) : List Char → Option Nat
  | [] => none
  | x :: xs =>
    match lastIdx c xs with
    | some i => some (i + 1)
    | none => if x == c then some 0 else none

/-- Python slice `s[i:j]` on a character list. -/
def pySlice (i j : Nat) (s : List Char) : List Char := (s.drop i).take (j - i)

/-! ## JSON values (the Python-side data model) -/

/-- A Python JSON value as produced by `json.loads`.  Numbers are exact
rationals; object fields are kept in insertion order with unique keys
(later duplicate keys overwrite earlier ones, as for a Python `dict`). -/
inductive JVal where
  | null : JVal
  | bool (b : Bool) : JVal
  | num (q : ℚ) : JVal
  | str (s : String) : JVal
  | arr (elems : List JVal) : JVal
  | obj (fields : List (String × JVal)) : JVal

/-- Look a key up in an object field list (first match; field lists built
by `objSet` have unique keys). -/
def objLookup (k : String) : List (String × JVal) → Option JVal
  | [] => none
  | (k', v) :: rest => if k' == k then some v else objLookup k rest

/-- Set a key in an object field list: replace the first existing binding
in place, else append, as Python `dict` assignment does. -/
def objSet (k : String) (v : JVal) : List (String × JVal) → List (String × JVal)
  | [] => [(k, v)]
  | (k', v') :: rest => if k' == k then (k, v) :: rest else (k', v') :: objSet k v rest

/-- Python truthiness of a JSON value. -/
def pyTruthy : JVal → Bool
  | .null => false
  | .bool b => b
  | .num q => q ≠ 0
  | .str s => s ≠ ""
  | .arr xs => !xs.isEmpty
  | .obj fs => !fs.isEmpty

/-! ## A small model of `json.loads` -/

/-- JSON insignificant whitespace. -/
def isJsonWs (c : Char) : Bool :=
  c == ' ' || c == '\t' || c == '\n' || c == '\r'

/-- Value of a hexadecimal digit (code points 0-9, a-f, A-F). -/
def hexVal (c : Char) : Option Nat :=
  let n := c.toNat
  if 48 ≤ n && n ≤ 57 then some (n - 48)
  else if 97 ≤ n && n ≤ 102 then some (n - 87)
  else if 65 ≤ n && n ≤ 70 then some (n - 55)
  else none

/-- Parse the body of a JSON string after its opening quote, handling the
standard escapes (a lone `\uXXXX` is taken as its code unit). -/
def parseStrBody : Nat → List Char → Option (List Char × List Char)
  | 0, _ => none
  | _, [] => none
  | fuel + 1, c :: rest =>
    if c == '\"' then some ([], rest)
    else if c == '\\' then
      match rest with
      | [] => none
      | e :: rest' =>
        let esc : Option (Char × List Char) :=
          if e == '\"' then some ('\"', rest')
          else if e == '\\' then some ('\\', rest')
          else if e == '/' then some ('/', rest')
          else if e == 'b' then some (Char.ofNat 8, rest')
          else if e == 'f' then some (Char.ofNat 12, rest')
          else if e == 'n' then some ('\n', rest')
          else if e == 'r' then some ('\r', rest')
          else if e == 't' then some ('\t', rest')
          else if e == 'u' then
            match rest' with
            | h1 :: h2 :: h3 :: h4 :: tail =>
              match ([h1, h2, h3, h4].mapM hexVal) with
              | some ds => some (Char.ofNat (ds.foldl (fun acc d => acc * 16 + d) 0), tail)
              | none => none
            | _ => none
          else none
        match esc with
        | some (ch, r) => (parseStrBody fuel r).map (fun p => (ch :: p.1, p.2))
        | none => none
    else (parseStrBody fuel rest).map (fun p => (c :: p.1, p.2))

/-- Accumulate a run of decimal digits left to right onto `acc`, also
counting the digits consumed. -/
def takeDigits (acc : Nat) (count : Nat) : List Char → (Nat × Nat × List Char)
  | [] => (acc, count, [])
  | c :: cs =>
    if isDigitChar c then takeDigits (acc * 10 + (c.toNat - '0'.toNat)) (count + 1) cs
    else (acc, count, c :: cs)

/-- Value of a decimal mantissa together with a base-ten exponent. -/
def decValue (mant : Int) (e : Int) : ℚ :=
  match e with
  | .ofNat n => mkRat (mant * ((10 ^ n : Nat) : Int)) 1
  | .negSucc n => mkRat mant (10 ^ (n + 1))

/-- Parse a JSON number (`-? digits frac? exp?`). -/
def parseNum (s : List Char) : Option (ℚ × List Char) :=
  let (neg, s1) : Bool × List Char :=
    match s with
    | c :: cs => if c == '-' then (true, cs) else (false, s)
    | [] => (false, s)
  let (ip, ic, s2) := takeDigits 0 0 s1
  if ic == 0 then none
  else
    let (mant, fracLen, s3) : Nat × Nat × List Char :=
      match s2 with
      | c :: cs =>
        if c == '.' then
          let (fp, fc, s3') := takeDigits ip 0 cs
          (fp, fc, s3')
        else (ip, 0, s2)
      | [] => (ip, 0, s2)
    if (match s2 with | c :: _ => c == '.' | [] => false) && fracLen == 0 then none
    else
      let (expo, s4) : Option Int × List Char :=
        match s3 with
        | c :: cs =>
          if c == 'e' || c == 'E' then
            let (esign, cs') : Bool × List Char :=
              match cs with
              | d :: ds => if d == '-' then (true, ds) else if d == '+' then (false, ds) else (false, cs)
              | [] => (false, cs)
            let (ev, ec, cs'') := takeDigits 0 0 cs'
            if ec == 0 then (none, s3)
            else (some (if esign then -(ev : Int) else (ev : Int)), cs'')
          else (some 0, s3)
        | [] => (some 0, s3)
      match expo with
      | none => none
      | some ex =>
        let m : Int := if neg then -(mant : Int) else (mant : Int)
        some (decValue m (ex - (fracLen : Int)), s4)

mutual

/-- Parse one JSON value from the front of the input. -/
def parseVal : Nat → List Char → Option (JVal × List Char)
  | 0, _ => none
  | fuel + 1, s =>
    let s := s.dropWhile isJsonWs
    match s with
    | [] => none
    | c :: rest =>
      if c == '\"' then
        (parseStrBody (fuel + 1) rest).map (fun p => (.str (String.mk p.1), p.2))
      else if c == lbraceChar then parseObjBody fuel [] true rest
      else if c == '[' then parseArrBody fuel [] true rest
      else if leadsList ['t', 'r', 'u', 'e'] s then some (.bool true, s.drop 4)
      else if leadsList ['f', 'a', 'l', 's', 'e'] s then some (.bool false, s.drop 5)
      else if leadsList ['n', 'u', 'l', 'l'] s then some (.null, s.drop 4)
      else (parseNum s).map (fun p => (.num p.1, p.2))

/-- Parse the members of a JSON object after its opening brace. -/
def parseObjBody : Nat → List (String × JVal) → Bool → List Char → Option (JVal × List Char)
  | 0, _, _, _ => none
  | fuel + 1, acc, first, s =>
    let s := s.dropWhile isJsonWs
    match s with
    | [] => none
    | c :: rest =>
      if c == rbraceChar && first then some (.obj acc, rest)
      else
        let (s', proceed) : List Char × Bool :=
          if first then (c :: rest, true)
          else if c == ',' then (rest.dropWhile isJsonWs, true)
          else if c == rbraceChar then (rest, false)
          else ([], false)
        if proceed then
          match s' with
          | k :: s'' =>
            if k == '\"' then
              match parseStrBody (fuel + 1) s'' with
              | none => none
              | some (key, afterKey) =>
                match afterKey.dropWhile isJsonWs with
                | ':' :: afterColon =>
                  match parseVal fuel afterColon with
                  | none => none
                  | some (v, afterVal) =>
                    parseObjBody fuel (objSet (String.mk key) v acc) false afterVal
                | _ => none
            else none
          | [] => none
        else if c == rbraceChar then some (.obj acc, rest)
        else none

/-- Parse the elements of a JSON array after its opening bracket. -/
def parseArrBody : Nat → List JVal → Bool → List Char → Option (JVal × List Char)
  | 0, _, _, _ => none
  | fuel + 1, acc, first, s =>
    let s := s.dropWhile isJsonWs
    match s with
    | [] => none
    | c :: rest =>
      if c == ']' && first then some (.arr acc.reverse, rest)
      else
        let (s', proceed) : List Char × Bool :=
          if first then (c :: rest, true)
          else if c == ',' then (rest, true)
          else if c == ']' then (rest, false)
          else ([], false)
        if proceed then
          match parseVal fuel s' with
          | none => none
          | some (v, afterVal) => parseArrBody fuel (v :: acc) false afterVal
        else if c == ']' then some (.arr acc.reverse, rest)
        else none

end

/-- Model of Python `json.loads`: parse one value, allow surrounding
whitespace, reject trailing input; `none` models a raised
`json.JSONDecodeError`. -/
def json_loads (s : String) : Option JVal :=
  match parseVal (s.data.length + 2) s.data with
  | some (v, rest) => if (rest.dropWhile isJsonWs).isEmpty then some v else none
  | none => none

/-! ## The forbidden-command matcher of `BaseAgent.run_terminal`

`run_terminal` guards commands with `re.search` over eight fixed patterns.
`RE` covers exactly the constructs those patterns use; `reMatch` is a
backtracking matcher (fuel-indexed; each step either consumes a character
or drops a regex item, so `pattern length + input length + 1` fuel always
suffices), and `reSearch` tries every start position as `re.search` does. -/

inductive RE where
  | char (c : Char) : RE
  | wordB : RE
  | wsPlus : RE
  | wsStar : RE
  | anyStar : RE
  | alphaStar : RE
  | classRR : RE
  deriving DecidableEq

/-- A `\b` word boundary between the previous character (if any) and the
rest of the input. -/
def wordBoundary (prev : Option Char) (s : List Char) : Bool :=
  let pw := match prev with | some c => isWordChar c | none => false
  let nw := match s with | c :: _ => isWordChar c | [] => false
  pw != nw

/-- Match a regex item list against a prefix of the input, given the
character just before the current position. -/
def reMatch : Nat → List RE → Option Char → List Char → Bool
  | 0, _, _, _ => false
  | _ + 1, [], _, _ => true
  | fuel + 1, .char c :: rs, _, s =>
    match s with
    | [] => false
    | x :: xs => x == c && reMatch fuel rs (some x) xs
  | fuel + 1, .wordB :: rs, prev, s => wordBoundary prev s && reMatch fuel rs prev s
  | fuel + 1, .wsPlus :: rs, prev, s =>
    match prev, s with
    | _, [] => false
    | _, x :: xs => isSpaceChar x && reMatch fuel (.wsStar :: rs) (some x) xs
  | fuel + 1, .wsStar :: rs, prev, s =>
    reMatch fuel rs prev s ||
      match s with
      | [] => false
      | x :: xs => isSpaceChar x && reMatch fuel (.wsStar :: rs) (some x) xs
  | fuel + 1, .anyStar :: rs, prev, s =>
    reMatch fuel rs prev s ||
      match s with
      | [] => false
      | x :: xs => x != '\n' && reMatch fuel (.anyStar :: rs) (some x) xs
  | fuel + 1, .alphaStar :: rs, prev, s =>
    reMatch fuel rs prev s ||
      match s with
      | [] => false
      | x :: xs => isAsciiLetterChar x && reMatch fuel (.alphaStar :: rs) (some x) xs
  | fuel + 1, .classRR :: rs, _, s =>
    match s with
    | [] => false
    | x :: xs => (x == 'r' || x == 'R') && reMatch fuel rs (some x) xs

/-- Try to match at the current position, then at every later position. -/
def reSearchAux (p : List RE) : Option Char → List Char → Bool
  | prev, s =>
    reMatch (p.length + s.length + 1) p prev s ||
      match s with
      | [] => false
      | x :: xs => reSearchAux p (some x) xs

/-- Model of Python `re.search(pattern, s) is not None` for the patterns
expressible in `RE`. -/
def reSearch (p : List RE) (s : String) : Bool := reSearchAux p none s.data

/-- `\bWORD\b` for a literal word. -/
def wordPat (w : List Char) : List RE := .wordB :: (w.map .char) ++ [.wordB]

/-- The `forbidden_patterns` list of `BaseAgent.run_terminal`, each with the
regex source text used in the error message. -/
def forbidden_patterns : List (String × List RE) :=
  [ ("\\bsudo\\b", wordPat ['s', 'u', 'd', 'o'])
  , ("\\bsu\\b", wordPat ['s', 'u'])
  , ("\\bmkfs\\b", wordPat ['m', 'k', 'f', 's'])
  , ("\\bdd\\b", wordPat ['d', 'd'])
  , ("\\bshutdown\\b", wordPat ['s', 'h', 'u', 't', 'd', 'o', 'w', 'n'])
  , ("\\breboot\\b", wordPat ['r', 'e', 'b', 'o', 'o', 't'])
  , ("\\brm\\b\\s+.*-[a-zA-Z]*[rR]",
      [.wordB, .char 'r', .char 'm', .wordB, .wsPlus, .anyStar, .char '-', .alphaStar, .classRR])
  , ("\\brm\\b\\s+.*--recursive",
      [.wordB, .char 'r', .char 'm', .wordB, .wsPlus, .anyStar, .char '-', .char '-',
       .char 'r', .char 'e', .char 'c', .char 'u', .char 'r', .char 's', .char 'i', .char 'v', .char 'e'])
  ]

/-- First forbidden pattern (in list order) matching the command, if any. -/
def findForbidden : List (String × List RE) → String → Option String
  | [], _ => none
  | (nm, p) :: rest, cmd => if reSearch p cmd then some nm else findForbidden rest cmd

/-- Outcome of the `subprocess.run` call, treated as an external boundary. -/
inductive SubprocRes where
  | completed (stdout stderr : String) : SubprocRes
  | timedOut : SubprocRes
  | raised (msg : String) : SubprocRes

/-- Result of `run_terminal`: the returned string, and whether a subprocess
was launched. -/
structure TermOut where
  output : String
  invokedSubprocess : Bool
  deriving DecidableEq

/-- `BaseAgent.run_terminal`.  `venvDir` models which of `.venv`/`venv`
exists on disk, `osIsNt` models `os.name == "nt"`, and `subproc` is the
subprocess boundary, applied to the full activation-prefixed command. -/
def run_terminal (can_execute_terminal : Bool) (venvDir : Option String) (osIsNt : Bool)
    (subproc : String → SubprocRes) (command : String) : TermOut :=
  if !can_execute_terminal then ⟨"Error: Terminal access denied.", false⟩
  else
    match findForbidden forbidden_patterns command with
    | some pat => ⟨"Error: Command blocked for safety. Forbidden pattern detected: " ++ pat, false⟩
    | none =>
      let activate : String :=
        match venvDir with
        | some d => if osIsNt then d ++ "\\Scripts\\activate && " else ". " ++ d ++ "/bin/activate && "
        | none => ""
      match subproc (activate ++ command) with
      | .completed out err =>
        let o := out ++ (if err != "" then "\nStderr: " ++ err else "")
        ⟨if pyStrip o != "" then pyStrip o else "Success (No output)", true⟩
      | .timedOut => ⟨"Error: Command timed out.", true⟩
      | .raised m => ⟨"Error executing command: " ++ m, true⟩

/-! ## `BaseAgent.read_file` and `BaseAgent.write_file` -/

/-- Result of `read_file`: the returned string and whether the filesystem
was opened for reading. -/
structure ReadOut where
  output : String
  performedRead : Bool
  deriving DecidableEq

/-- `BaseAgent.read_file` over a filesystem modelled as a partial map from
paths to contents (`none` makes `open` raise, whose text is returned). -/
def read_file (fs : String → Option String) (file_path : String) : ReadOut :=
  if strIn ".." file_path || pyStartsWith file_path "/" then ⟨"Error: Access denied.", false⟩
  else
    match fs file_path with
    | some content => ⟨content, true⟩
    | none => ⟨"[Errno 2] No such file or directory: " ++ file_path, true⟩

/-- Result of `write_file`: the returned string, the filesystem afterwards,
and whether any write (including directory creation) happened. -/
structure WriteOut where
  output : String
  fs : List (String × String)
  performedWrite : Bool
  deriving DecidableEq

/-- Store a file in the association-list filesystem. -/
def fsStore (fs : List (String × String)) (path content : String) : List (String × String) :=
  match fs with
  | [] => [(path, content)]
  | (p, c) :: rest => if p == path then (path, content) :: rest else (p, c) :: fsStore rest path content

/-- Split at the first `|`, as Python `input_str.split("|", 1)`. -/
def splitFirstBar (s : String) : String × String :=
  let before := s.data.takeWhile (fun c => c != '|')
  let after := (s.data.dropWhile (fun c => c != '|')).drop 1
  (String.mk before, String.mk after)

/-- `BaseAgent.write_file` (the source format-error message contains quotes,
elided here; no claim depends on that exact text). -/
def write_file (can_write : Bool) (fs : List (String × String)) (input_str : String) : WriteOut :=
  if !can_write then ⟨"Error: Write access denied.", fs, false⟩
  else if !(strIn "|" input_str) then ⟨"Error: Input format must be filepath|content", fs, false⟩
  else
    let parts := splitFirstBar input_str
    let file_path := pyStrip parts.1
    if strIn ".." file_path || pyStartsWith file_path "/" then
      ⟨"Error: Access denied (External path).", fs, false⟩
    else ⟨"Success: Wrote to " ++ file_path, fsStore fs file_path parts.2, true⟩

/-! ## Path segments (for the safety claim about parent-directory segments) -/

/-- Split a character list into `/`-separated path segments. -/
def splitSeg : List Char → List (List Char)
  | [] => [[]]
  | c :: cs =>
    if c == '/' then [] :: splitSeg cs
    else
      match splitSeg cs with
      | [] => [[c]]
      | s :: rest => (c :: s) :: rest

/-- Does the path contain a parent-directory segment `..`? -/
def hasParentSegment (p : String) : Bool :=
  (splitSeg p.data).any (fun s => s == ['.', '.'])

/-! ## The evaluation-phase verdict extraction (`run_evaluation_phase`) -/

/-- The substring of `result` from the first `{` through the last `}`,
i.e. Python `result[result.index("\x7b") : result.rindex("\x7d") + 1]`
(an empty slice when the last `}` precedes the first `{`). -/
def extract_braces (result : String) : String :=
  match firstIdx lbraceChar result.data, lastIdx rbraceChar result.data with
  | some i, some j => String.mk (pySlice i (j + 1) result.data)
  | _, _ => ""

/-- The default verdict built when the planner text has no braces
(`findings` is `"Could not parse evaluation"` in the source). -/
def default_verdict_no_braces (result : String) : JVal :=
  .obj [ ("accepted", .bool false)
       , ("confidence", .num 0)
       , ("evidence", .str result)
       , ("findings", .str "Could not parse evaluation")
       , ("recommendations", .str "Review manually") ]

/-- The default verdict built when `json.loads` raises
(`findings` is `"Evaluation parsing failed"` in the source). -/
def default_verdict_parse_failed (result : String) : JVal :=
  .obj [ ("accepted", .bool false)
       , ("confidence", .num 0)
       , ("evidence", .str result)
       , ("findings", .str "Evaluation parsing failed")
       , ("recommendations", .str "Review manually") ]

/-- The verdict-parsing block of `AgentPipeline.run_evaluation_phase`
applied to the planner text. -/
def evaluation_verdict (result : String) : JVal :=
  if strIn "\x7b" result && strIn "\x7d" result then
    match json_loads (extract_braces result) with
    | some v => v
    | none => default_verdict_parse_failed result
  else default_verdict_no_braces result

/-! ## The experience pool used by the pipeline

Writers are modelled at the level of the JSON values the store files hold:
each `add_*` method is a locked read-modify-write of one store, so its
effect is an append to that store's entry sequence.  The hypotheses store
keeps its whole file value (an object with a `candidates` sequence) because
`add_hypothesis`/`update_hypothesis` address it by id. -/

/-- Python exceptions distinguished by the embedding. -/
inductive PyErr where
  | typeError (msg : String) : PyErr
  | attributeError : PyErr
  | keyError (k : String) : PyErr
  | valueError : PyErr
  deriving DecidableEq

/-- `str(e)` for the exceptions above. -/
def pyErrStr : PyErr → String
  | .typeError m => m
  | .attributeError => "AttributeError"
  | .keyError k => k
  | .valueError => "ValueError"

/-- The in-memory view of the five stores. -/
structure Pool where
  breakthroughs : List JVal
  hypothesesData : JVal
  pitfalls : List JVal
  logs : List JVal
  results : List JVal

/-- An `Option String` as the JSON value Python would serialise. -/
def optStrJ : Option String → JVal
  | none => .null
  | some s => .str s

/-- The log entry dict of `ExperiencePool.add_log`. -/
def logObj (nowIso agent_id phase level message : String) : JVal :=
  .obj [ ("timestamp", .str nowIso)
       , ("agent_id", .str agent_id)
       , ("phase", .str phase)
       , ("level", .str level)
       , ("message", .str message) ]

/-- `ExperiencePool.add_log`. -/
def add_log (nowIso agent_id phase message level : String) (p : Pool) : Pool :=
  { p with logs := p.logs ++ [logObj nowIso agent_id phase level message] }

/-- The pitfall entry dict of `ExperiencePool.add_pitfall`. -/
def pitfallObj (nowIso agent_id : String) (hypothesis_id : Option String)
    (description : String) (error : Option String) : JVal :=
  .obj [ ("timestamp", .str nowIso)
       , ("agent_id", .str agent_id)
       , ("hypothesis_id", optStrJ hypothesis_id)
       , ("description", .str description)
       , ("error", optStrJ error) ]

/-- `ExperiencePool.add_pitfall`. -/
def add_pitfall (nowIso agent_id : String) (description : String)
    (hypothesis_id : Option String) (error : Option String) (p : Pool) : Pool :=
  { p with pitfalls := p.pitfalls ++ [pitfallObj nowIso agent_id hypothesis_id description error] }

/-- The breakthrough entry dict of `ExperiencePool.add_breakthrough`. -/
def breakthroughObj (nowIso agent_id : String) (hypothesis_id : Option String)
    (description : String) : JVal :=
  .obj [ ("timestamp", .str nowIso)
       , ("agent_id", .str agent_id)
       , ("hypothesis_id", optStrJ hypothesis_id)
       , ("description", .str description) ]

/-- `ExperiencePool.add_breakthrough`. -/
def add_breakthrough (nowIso agent_id : String) (description : String)
    (hypothesis_id : Option String) (p : Pool) : Pool :=
  { p with breakthroughs := p.breakthroughs ++ [breakthroughObj nowIso agent_id hypothesis_id description] }

/-- The result entry dict of `ExperiencePool.add_result` (the pipeline never
passes metrics, so they default to the empty dict). -/
def resultObj (nowIso agent_id : String) (hypothesis_id : Option String) (result : JVal) : JVal :=
  .obj [ ("timestamp", .str nowIso)
       , ("agent_id", .str agent_id)
       , ("hypothesis_id", optStrJ hypothesis_id)
       , ("result", result)
       , ("metrics", .obj []) ]

/-- `ExperiencePool.add_result`. -/
def add_result (nowIso agent_id : String) (hypothesis_id : Option String) (result : JVal)
    (p : Pool) : Pool :=
  { p with results := p.results ++ [resultObj nowIso agent_id hypothesis_id result] }

/-- The candidate entry dict created by `ExperiencePool.add_hypothesis`. -/
def hypothesisObj (hid nowIso agent_id text status : String) : JVal :=
  .obj [ ("id", .str hid)
       , ("timestamp", .str nowIso)
       , ("agent_id", .str agent_id)
       , ("hypothesis", .str text)
       , ("status", .str status)
       , ("plan", .null)
       , ("evaluation", .null) ]

/-- `ExperiencePool.add_hypothesis` on the hypotheses file value: generate
the id `hyp_<timestamp>_<agent_id>`, create the `candidates` sequence if
missing, and append the new entry.  Appending to a non-sequence
`candidates` value raises, as `.append` would in Python. -/
def add_hypothesis (nowIso nowId agent_id text status : String) (data : JVal) :
    Except PyErr (String × JVal) :=
  let hid := "hyp_" ++ nowId ++ "_" ++ agent_id
  let entry := hypothesisObj hid nowIso agent_id text status
  match data with
  | .obj fs =>
    match objLookup "candidates" fs with
    | some (.arr cs) => .ok (hid, .obj (objSet "candidates" (.arr (cs ++ [entry])) fs))
    | some _ => .error .attributeError
    | none => .ok (hid, .obj (fs ++ [("candidates", .arr [entry])]))
  | _ => .error .attributeError

/-- Look a key up with a default, as Python `dict.get(k, d)`. -/
def objGetD (k : String) (d : JVal) (fs : List (String × JVal)) : JVal :=
  (objLookup k fs).getD d

mutual

/-- Python `==` between JSON values: numbers and booleans compare
numerically, lists elementwise, dicts by key set and values; values of
different kinds are unequal. -/
def pyEq : JVal → JVal → Bool
  | .null, .null => true
  | .bool x, .bool y => x == y
  | .bool x, .num q => (if x then (1 : ℚ) else 0) == q
  | .num q, .bool y => q == (if y then (1 : ℚ) else 0)
  | .num x, .num y => x == y
  | .str x, .str y => x == y
  | .arr xs, .arr ys => pyEqList xs ys
  | .obj xs, .obj ys => xs.length == ys.length && pyEqFields xs ys
  | _, _ => false

/-- Elementwise Python `==` on lists. -/
def pyEqList : List JVal → List JVal → Bool
  | [], [] => true
  | x :: xs, y :: ys => pyEq x y && pyEqList xs ys
  | _, _ => false

/-- Keywise Python `==` on dict field lists (the length check is done by
the caller). -/
def pyEqFields : List (String × JVal) → List (String × JVal) → Bool
  | [], _ => true
  | (k, v) :: rest, ys =>
    (match objLookup k ys with
     | some w => pyEq v w
     | none => false) && pyEqFields rest ys

end

/-! ## `ExperiencePool.update_hypothesis` -/

/-- `entry.update(updates)` followed by stamping `updated_at`. -/
def updateEntryFields (nowIso : String) (updates : List (String × JVal))
    (g : List (String × JVal)) : List (String × JVal) :=
  objSet "updated_at" (.str nowIso) (updates.foldl (fun acc kv => objSet kv.1 kv.2 acc) g)

/-- Linear scan over the candidates: update the first entry whose `id`
equals the requested id and stop (the `break` in the source).  A non-dict
entry makes `entry.get` raise. -/
def updCandidates (nowIso : String) (hid : JVal) (updates : List (String × JVal)) :
    List JVal → Except PyErr (List JVal)
  | [] => .ok []
  | e :: t =>
    match e with
    | .obj g =>
      if pyEq (objGetD "id" .null g) hid then
        .ok (.obj (updateEntryFields nowIso updates g) :: t)
      else (updCandidates nowIso hid updates t).map (e :: ·)
    | _ => .error .attributeError

/-- `ExperiencePool.update_hypothesis` on the hypotheses file value.  With
no `candidates` key the loop body never runs and the value is rewritten
unchanged; iterating a non-sequence value raises just as Python's `for`
over it would (an empty string or dict iterates zero times). -/
def update_hypothesis (nowIso : String) (hid : JVal) (updates : List (String × JVal))
    (data : JVal) : Except PyErr JVal :=
  match data with
  | .obj fs =>
    match objLookup "candidates" fs with
    | some (.arr cs) =>
      (updCandidates nowIso hid updates cs).map (fun cs' => .obj (objSet "candidates" (.arr cs') fs))
    | some (.str s) => if s.isEmpty then .ok data else .error .attributeError
    | some (.obj gs) => if gs.isEmpty then .ok data else .error .attributeError
    | some _ => .error (.typeError "argument of type is not iterable")
    | none => .ok data
  | _ => .error .attributeError

/-! ## `BaseAgent.__init__` and the pipeline phases

`BaseAgent.__init__(self, specialization, task, can_write=False,
can_execute_terminal=False, extra_tools=None, max_steps=10)` accepts
exactly the six keyword parameters below; every pipeline phase (and the
orchestrator's synthesis/apply steps) additionally passes `working_dir`,
which Python rejects with a `TypeError` before the agent exists. -/

/-- The keyword parameters accepted by `BaseAgent.__init__`. -/
def baseAgentInitParams : List String :=
  ["specialization", "task", "can_write", "can_execute_terminal", "extra_tools", "max_steps"]

/-- The keyword arguments every `AgentPipeline` phase passes to
`BaseAgent`. -/
def pipeline_agent_kwargs : List String :=
  ["specialization", "task", "can_write", "can_execute_terminal", "working_dir"]

/-- Keyword binding of a `BaseAgent(...)` call: any keyword not among the
accepted parameters raises `TypeError`. -/
def baseAgentInit (kwargs : List String) : Except PyErr Unit :=
  match kwargs.find? (fun k => !(baseAgentInitParams.contains k)) with
  | some k => .error (.typeError ("__init__() got an unexpected keyword argument " ++ k))
  | none => .ok ()

/-- The mutable per-run attributes of `AgentPipeline`. -/
structure PipeVars where
  hypothesis_id : Option String
  hypothesis_text : Option String
  plan : Option String
  evaluation_result : Option JVal

/-- The would-be `agent.work()` results of the six phases, an opaque
planner boundary. -/
structure PhaseOracle where
  hypothesis : String
  planning : String
  coding : String
  execution : String
  testing : String
  evaluation : String

/-- `ExperiencePool.get_all_context` over the in-memory pool view (a pure
read feeding prompt text; it never influences control flow). -/
def pool_context (p : Pool) : JVal :=
  .obj [ ("breakthroughs", .obj [("entries", .arr p.breakthroughs)])
       , ("hypotheses", p.hypothesesData)
       , ("pitfalls", .obj [("entries", .arr p.pitfalls)])
       , ("logs", .obj [("entries", .arr p.logs)])
       , ("results", .obj [("entries", .arr p.results)]) ]

/-- Python falsiness of an optional string attribute (`None` or `""`). -/
def optStrFalsy : Option String → Bool
  | none => true
  | some s => s == ""

/-- The hypothesis-phase logic after `agent.work()` returns
(`agent_pipeline.py` lines 71-83): record a hypothesis iff the text is
non-empty and does not contain `"False"`. -/
def run_hypothesis_decision (nowIso nowId agent_id : String) (text : String)
    (v : PipeVars) (p : Pool) : (Except PyErr Bool) × PipeVars × Pool :=
  let v := { v with hypothesis_text := some text }
  if text != "" && !(strIn "False" text) then
    match add_hypothesis nowIso nowId agent_id text "in_progress" p.hypothesesData with
    | .error e => (.error e, v, p)
    | .ok (hid, data') =>
      let v := { v with hypothesis_id := some hid }
      let p := { p with hypothesesData := data' }
      (.ok true, v, add_log nowIso agent_id "hypothesis" ("Generated: " ++ pyTakeStr 100 text ++ "...") "info" p)
  else
    (.ok false, v, add_log nowIso agent_id "hypothesis" "Failed to generate hypothesis" "error" p)

/-- `AgentPipeline.run_hypothesis_phase`: log, read the aggregate context,
then construct a read-only `BaseAgent` — which raises `TypeError`, since
the call passes `working_dir`. -/
def run_hypothesis_phase (nowIso nowId : String) (work : PhaseOracle) (agent_id : String)
    (v : PipeVars) (p : Pool) : (Except PyErr Bool) × PipeVars × Pool :=
  let p := add_log nowIso agent_id "hypothesis" "Generating hypothesis" "info" p
  let _context := pool_context p
  match baseAgentInit pipeline_agent_kwargs with
  | .error e => (.error e, v, p)
  | .ok _ => run_hypothesis_decision nowIso nowId agent_id work.hypothesis v p

/-- `AgentPipeline.run_planning_phase`. -/
def run_planning_phase (nowIso : String) (work : PhaseOracle) (agent_id : String)
    (v : PipeVars) (p : Pool) : (Except PyErr Bool) × PipeVars × Pool :=
  if optStrFalsy v.hypothesis_text then (.ok false, v, p)
  else
    let p := add_log nowIso agent_id "planning" "Creating implementation plan" "info" p
    match baseAgentInit pipeline_agent_kwargs with
    | .error e => (.error e, v, p)
    | .ok _ =>
      let plan := work.planning
      let v := { v with plan := some plan }
      if plan != "" then
        match update_hypothesis nowIso (optStrJ v.hypothesis_id) [("plan", .str plan)] p.hypothesesData with
        | .error e => (.error e, v, p)
        | .ok data' =>
          let p := { p with hypothesesData := data' }
          (.ok true, v, add_log nowIso agent_id "planning" "Plan created successfully" "info" p)
      else (.ok false, v, add_log nowIso agent_id "planning" "Failed to create plan" "error" p)

/-- The coding-phase logic after `agent.work()` returns
(`agent_pipeline.py` lines 172-185): on a failing result, record exactly
one pitfall carrying the hypothesis id and the failure text. -/
def run_coding_decision (nowIso agent_id : String) (hypothesis_id : Option String)
    (result : String) (p : Pool) : Bool × Pool :=
  if result != "" && !(strIn "False" result) then
    (true, add_log nowIso agent_id "coding" "Implementation complete" "info" p)
  else
    let p := add_pitfall nowIso agent_id "Coding phase failed" hypothesis_id (some result) p
    (false, add_log nowIso agent_id "coding" "Implementation failed" "error" p)

/-- `AgentPipeline.run_coding_phase`. -/
def run_coding_phase (nowIso : String) (work : PhaseOracle) (agent_id : String)
    (v : PipeVars) (p : Pool) : (Except PyErr Bool) × PipeVars × Pool :=
  if optStrFalsy v.plan then (.ok false, v, p)
  else
    let p := add_log nowIso agent_id "coding" "Implementing plan" "info" p
    match baseAgentInit pipeline_agent_kwargs with
    | .error e => (.error e, v, p)
    | .ok _ =>
      let (ok, p) := run_coding_decision nowIso agent_id v.hypothesis_id work.coding p
      (.ok ok, v, p)

/-- `AgentPipeline.run_execution_phase` (best effort, always reports
success). -/
def run_execution_phase (nowIso : String) (work : PhaseOracle) (agent_id : String)
    (v : PipeVars) (p : Pool) : (Except PyErr Bool) × PipeVars × Pool :=
  let p := add_log nowIso agent_id "execution" "Running training/execution" "info" p
  match baseAgentInit pipeline_agent_kwargs with
  | .error e => (.error e, v, p)
  | .ok _ =>
    let result := work.execution
    let shown := if result != "" then pyTakeStr 200 result else "None"
    (.ok true, v, add_log nowIso agent_id "execution" ("Execution result: " ++ shown ++ "...") "info" p)

/-- `AgentPipeline.run_testing_phase` (returns the planner text). -/
def run_testing_phase (nowIso : String) (work : PhaseOracle) (agent_id : String)
    (v : PipeVars) (p : Pool) : (Except PyErr String) × PipeVars × Pool :=
  let p := add_log nowIso agent_id "testing" "Running tests" "info" p
  match baseAgentInit pipeline_agent_kwargs with
  | .error e => (.error e, v, p)
  | .ok _ =>
    let result := work.testing
    let shown := if result != "" then pyTakeStr 200 result else "None"
    (.ok result, v, add_log nowIso agent_id "testing" ("Test results: " ++ shown ++ "...") "info" p)

/-- A short rendering of the `accepted` field for the completion log line
(the exact Python `str()` rendering is an elided presentation detail). -/
def acceptedShown : JVal → String
  | .bool true => "True"
  | .bool false => "False"
  | .null => "None"
  | _ => "value"

/-- `AgentPipeline.run_evaluation_phase`: parse the verdict, then record
the result, complete the hypothesis, and add the breakthrough or pitfall. -/
def run_evaluation_phase (nowIso : String) (work : PhaseOracle) (agent_id : String)
    (v : PipeVars) (p : Pool) : (Except PyErr JVal) × PipeVars × Pool :=
  let p := add_log nowIso agent_id "evaluation" "Evaluating hypothesis" "info" p
  let _context := pool_context p
  match baseAgentInit pipeline_agent_kwargs with
  | .error e => (.error e, v, p)
  | .ok _ =>
    let result := work.evaluation
    let verdict := evaluation_verdict result
    let v := { v with evaluation_result := some verdict }
    let p := add_result nowIso agent_id v.hypothesis_id verdict p
    match update_hypothesis nowIso (optStrJ v.hypothesis_id)
        [("status", .str "completed"), ("evaluation", verdict), ("completed_at", .str nowIso)]
        p.hypothesesData with
    | .error e => (.error e, v, p)
    | .ok data' =>
      let p := { p with hypothesesData := data' }
      match verdict with
      | .obj vf =>
        let accJ := objGetD "accepted" .null vf
        let text100 := pyTakeStr 100 (v.hypothesis_text.getD "")
        let p :=
          if pyTruthy accJ then
            add_breakthrough nowIso agent_id ("Hypothesis accepted: " ++ text100 ++ "...") v.hypothesis_id p
          else
            add_pitfall nowIso agent_id ("Hypothesis rejected: " ++ text100 ++ "...") v.hypothesis_id none p
        let p := add_log nowIso agent_id "evaluation"
          ("Evaluation complete: accepted=" ++ acceptedShown accJ) "info" p
        (.ok verdict, v, p)
      | _ => (.error .attributeError, v, p)

/-- The public result dict of a completed pipeline run. -/
structure PipeResult where
  agent_id : String
  hypothesis_id : Option String
  hypothesis : Option String
  plan : Option String
  evaluation : Option JVal

/-- `AgentPipeline.setup_isolated_workspace`: logs around the workspace
copy; the copy itself is external filesystem state, summarised by the
returned flag. -/
def setup_isolated_workspace (nowIso agent_id agent_workspace : String) (p : Pool) : Pool × Bool :=
  let p := add_log nowIso agent_id "setup" "Creating isolated workspace" "info" p
  (add_log nowIso agent_id "setup" ("Workspace created at " ++ agent_workspace) "info" p, true)

/-- `AgentPipeline.cleanup_workspace`: log and remove the workspace. -/
def cleanup_workspace (nowIso agent_id : String) (p : Pool) : Pool × Bool :=
  (add_log nowIso agent_id "cleanup" "Removing isolated workspace" "info" p, false)

/-- The `except Exception` handler of `run_full_pipeline`: log the failure,
record the crash pitfall, clean up, return `None`. -/
def pipeline_crash (nowIso agent_id : String) (e : PyErr) (v : PipeVars) (p : Pool) :
    Option PipeResult × PipeVars × Pool × Bool :=
  let p := add_log nowIso agent_id "pipeline" ("Pipeline failed: " ++ pyErrStr e) "error" p
  let p := add_pitfall nowIso agent_id ("Pipeline crashed: " ++ pyErrStr e) v.hypothesis_id (some (pyErrStr e)) p
  let (p, ws) := cleanup_workspace nowIso agent_id p
  (none, v, p, ws)

/-- `AgentPipeline.run_full_pipeline`: the phase chain with its fatal
short-circuits and the catch-all crash handler.  The final component is
whether the isolated workspace still exists. -/
def run_full_pipeline (nowIso nowId : String) (work : PhaseOracle) (agent_id workspace_dir : String)
    (p : Pool) : Option PipeResult × PipeVars × Pool × Bool :=
  let v : PipeVars := ⟨none, none, none, none⟩
  let agent_workspace := workspace_dir ++ "/agent_" ++ agent_id
  let p := add_log nowIso agent_id "pipeline" "Starting full pipeline" "info" p
  let (p, _ws) := setup_isolated_workspace nowIso agent_id agent_workspace p
  match run_hypothesis_phase nowIso nowId work agent_id v p with
  | (.error e, v, p) => pipeline_crash nowIso agent_id e v p
  | (.ok ok, v, p) =>
    if !ok then
      let (p, ws) := cleanup_workspace nowIso agent_id p
      (none, v, p, ws)
    else
      match run_planning_phase nowIso work agent_id v p with
      | (.error e, v, p) => pipeline_crash nowIso agent_id e v p
      | (.ok ok, v, p) =>
        if !ok then
          let (p, ws) := cleanup_workspace nowIso agent_id p
          (none, v, p, ws)
        else
          match run_coding_phase nowIso work agent_id v p with
          | (.error e, v, p) => pipeline_crash nowIso agent_id e v p
          | (.ok ok, v, p) =>
            if !ok then
              let (p, ws) := cleanup_workspace nowIso agent_id p
              (none, v, p, ws)
            else
              match run_execution_phase nowIso work agent_id v p with
              | (.error e, v, p) => pipeline_crash nowIso agent_id e v p
              | (.ok _, v, p) =>
                match run_testing_phase nowIso work agent_id v p with
                | (.error e, v, p) => pipeline_crash nowIso agent_id e v p
                | (.ok _, v, p) =>
                  match run_evaluation_phase nowIso work agent_id v p with
                  | (.error e, v, p) => pipeline_crash nowIso agent_id e v p
                  | (.ok verdict, v, p) =>
                    let (p, ws) := cleanup_workspace nowIso agent_id p
                    let p := add_log nowIso agent_id "pipeline" "Pipeline completed" "info" p
                    (some ⟨agent_id, v.hypothesis_id, v.hypothesis_text, v.plan, some verdict⟩, v, p, ws)

/-! ## Python attribute/index access helpers -/

/-- Python `v.get(k, d)`: raises `AttributeError` unless `v` is a dict. -/
def pyGetD (v : JVal) (k : String) (d : JVal) : Except PyErr JVal :=
  match v with
  | .obj fs => .ok (objGetD k d fs)
  | _ => .error .attributeError

/-- Python `v[k]` for a string key: `KeyError` when absent, `TypeError`
when `v` is not a dict. -/
def pyIndex (v : JVal) (k : String) : Except PyErr JVal :=
  match v with
  | .obj fs =>
    match objLookup k fs with
    | some w => .ok w
    | none => .error (.keyError k)
  | _ => .error (.typeError "object is not subscriptable")

/-- Python iteration over a JSON value: lists yield elements, strings yield
one-character strings, dicts yield their keys, anything else raises. -/
def pyIterate : JVal → Except PyErr (List JVal)
  | .arr xs => .ok xs
  | .str s => .ok (s.data.map (fun c => .str (String.mk [c])))
  | .obj fs => .ok (fs.map (fun kv => .str kv.1))
  | _ => .error (.typeError "object is not iterable")

/-! ## `Orchestrator._synthesize_improvements` -/

/-- The `accepted` flag of one pipeline-result dict, as the synthesis
filter reads it: `r.get("evaluation", \x7b\x7d).get("accepted")` under
Python truthiness. -/
def resultAcceptedTruthy (r : JVal) : Except PyErr Bool := do
  let ev ← pyGetD r "evaluation" (.obj [])
  let acc ← pyGetD ev "accepted" .null
  pure (pyTruthy acc)

/-- The list comprehension
`[r for r in results if r.get("evaluation", \x7b\x7d).get("accepted")]`. -/
def acceptedFilter : List JVal → Except PyErr (List JVal)
  | [] => .ok []
  | r :: t => do
    let b ← resultAcceptedTruthy r
    let rest ← acceptedFilter t
    pure (if b then r :: rest else rest)

/-- The synthesis max key
`r.get("evaluation", \x7b\x7d).get("confidence", 0)`. -/
def resultConfidence (r : JVal) : Except PyErr JVal := do
  let ev ← pyGetD r "evaluation" (.obj [])
  let c ← pyGetD ev "confidence" (.num 0)
  pure c

/-- Python `a > b` on JSON values: numeric values (and booleans) compare
numerically, strings lexicographically, anything else raises. -/
def pyGtJ (a b : JVal) : Except PyErr Bool :=
  match a, b with
  | .num x, .num y => .ok (decide (y < x))
  | .num x, .bool y => .ok (decide ((if y then (1 : ℚ) else 0) < x))
  | .bool x, .num y => .ok (decide (y < (if x then (1 : ℚ) else 0)))
  | .bool x, .bool y => .ok (decide ((if y then (1 : ℚ) else 0) < (if x then (1 : ℚ) else 0)))
  | .str x, .str y => .ok (strLt y x)
  | _, _ => .error (.typeError "not supported between instances")

/-- The fold of Python `max(..., key=confidence)`: keep the incumbent
unless a later element's key is strictly greater (so the first maximal
element wins ties). -/
def pyMaxGo (best : JVal) : List JVal → Except PyErr JVal
  | [] => .ok best
  | y :: t => do
    let ky ← resultConfidence y
    let kb ← resultConfidence best
    let g ← pyGtJ ky kb
    pyMaxGo (if g then y else best) t

/-- `max(accepted_results, key=lambda r: r.get("evaluation", \x7b\x7d).get("confidence", 0))`. -/
def pyMaxByConf : List JVal → Except PyErr JVal
  | [] => .error .valueError
  | x :: xs => pyMaxGo x xs

/-- `Orchestrator._synthesize_improvements`.  `render` is Python `str()`
on interpolated values (a presentation boundary) and `synth_work` the
would-be synthesis agent answer.  After the selection log the method reads
the winning dict's fields for its prompt and then constructs a `BaseAgent`
with `working_dir`, which raises `TypeError`. -/
def synthesize_improvements (nowIso : String) (render : JVal → String) (synth_work : String)
    (results : List JVal) (p : Pool) : (Except PyErr (Option JVal)) × Pool :=
  let p := add_log nowIso "orchestrator" "synthesis" "Synthesizing improvements from agent results" "info" p
  match acceptedFilter results with
  | .error e => (.error e, p)
  | .ok accepted_results =>
    if accepted_results.isEmpty then
      (.ok none, add_log nowIso "orchestrator" "synthesis" "No accepted hypotheses to synthesize" "warning" p)
    else
      match pyMaxByConf accepted_results with
      | .error e => (.error e, p)
      | .ok best_result =>
        match pyIndex best_result "agent_id", resultConfidence best_result with
        | .error e, _ => (.error e, p)
        | .ok _, .error e => (.error e, p)
        | .ok aid, .ok conf =>
          let p := add_log nowIso "orchestrator" "synthesis"
            ("Selected best result from agent " ++ render aid ++ " with confidence " ++ render conf) "info" p
          let _context := pool_context p
          let promptFields : Except PyErr Unit := do
            let _ ← pyIndex best_result "hypothesis"
            let _ ← pyIndex best_result "plan"
            let _ ← pyIndex best_result "evaluation"
            pure ()
          match promptFields with
          | .error e => (.error e, p)
          | .ok _ =>
            match baseAgentInit pipeline_agent_kwargs with
            | .error e => (.error e, p)
            | .ok _ =>
              let improvement_plan := synth_work
              let p := add_log nowIso "orchestrator" "synthesis" "Improvement plan created" "info" p
              let improvement : Except PyErr JVal := do
                let hid ← pyIndex best_result "hypothesis_id"
                let hyp ← pyIndex best_result "hypothesis"
                pure (.obj [ ("source_agent", aid)
                           , ("hypothesis_id", hid)
                           , ("hypothesis", hyp)
                           , ("plan", .str improvement_plan)
                           , ("confidence", conf) ])
              match improvement with
              | .error e => (.error e, p)
              | .ok impr => (.ok (some impr), p)

/-! ## The checkpoint manager (`checkpoint.py`)

The repository tree is a mutually inductive file tree; directory entries
are name-keyed.  `copyFiltered` is `shutil.copytree` with
`ignore_patterns(*IGNORE)` (the names are literal, so the patterns match
exact names at every level, for files and directories alike). -/

mutual

inductive FSNode where
  | file (content : String) : FSNode
  | dir (entries : FSEntries) : FSNode

inductive FSEntries where
  | nil : FSEntries
  | cons (name : String) (node : FSNode) (rest : FSEntries) : FSEntries

end

/-- Look up a directory entry by name. -/
def getEntryF (n : String) : FSEntries → Option FSNode
  | .nil => none
  | .cons m t rest => if m == n then some t else getEntryF n rest

/-- Replace the first entry with the given name, or append a new one. -/
def setEntryF (n : String) (node : FSNode) : FSEntries → FSEntries
  | .nil => .cons n node .nil
  | .cons m t rest => if m == n then .cons n node rest else .cons m t (setEntryF n node rest)

/-- Concatenate entry lists. -/
def appendF : FSEntries → FSEntries → FSEntries
  | .nil, bs => bs
  | .cons m t rest, bs => .cons m t (appendF rest bs)

/-- The entry names of a directory. -/
def namesF : FSEntries → List String
  | .nil => []
  | .cons m _ rest => m :: namesF rest

/-- Resolve a path (a list of names) in a tree. -/
def getPath : FSNode → List String → Option FSNode
  | t, [] => some t
  | .file _, _ :: _ => none
  | .dir es, n :: rest =>
    match getEntryF n es with
    | some t => getPath t rest
    | none => none

/-- The `IGNORE` set of `checkpoint.py`. -/
def IGNORE : List String :=
  [".git", "__pycache__", "venv", ".venv", ".vscode", "node_modules", ".idea",
   "snapshots", "agent_workspaces", "data"]

mutual

/-- Copy a tree, dropping entries whose name is in the ignore list, at
every level. -/
def copyFiltered (ign : List String) : FSNode → FSNode
  | .file c => .file c
  | .dir es => .dir (copyFilteredEntries ign es)

/-- Copy an entry list, dropping ignored names. -/
def copyFilteredEntries (ign : List String) : FSEntries → FSEntries
  | .nil => .nil
  | .cons m t rest =>
    if ign.contains m then copyFilteredEntries ign rest
    else .cons m (copyFiltered ign t) (copyFilteredEntries ign rest)

end

/-- `checkpoint.save_snapshot`: ensure the snapshots directory exists, then
copy the (filtered) repository tree to `snapshots/snapshot_<timestamp>`.
The snapshots directory itself is in `IGNORE`, so copying before or after
creating it yields the same filtered tree. -/
def save_snapshot (ts repo_path : String) (root : FSNode) : String × FSNode :=
  let snapshot_name := "snapshot_" ++ ts
  let snapshot_path := repo_path ++ "/snapshots/" ++ snapshot_name
  match root with
  | .file _ => ("Error saving snapshot: not a directory", root)
  | .dir es =>
    match getEntryF "snapshots" es with
    | some (.file _) => ("Error saving snapshot: snapshots is not a directory", root)
    | some (.dir snaps) =>
      if (getEntryF snapshot_name snaps).isSome then
        ("Error saving snapshot: target exists", root)
      else
        ("Snapshot saved to: " ++ snapshot_path,
         .dir (setEntryF "snapshots"
           (.dir (appendF snaps (.cons snapshot_name (copyFiltered IGNORE root) .nil))) es))
    | none =>
      ("Snapshot saved to: " ++ snapshot_path,
       .dir (setEntryF "snapshots"
         (.dir (.cons snapshot_name (copyFiltered IGNORE root) .nil)) es))

/-- Keep exactly the top-level entries the revert loop skips (names in
`IGNORE`); everything else is deleted. -/
def keepIgnoredF : FSEntries → FSEntries
  | .nil => .nil
  | .cons m t rest => if IGNORE.contains m then .cons m t (keepIgnoredF rest) else keepIgnoredF rest

/-- The lexicographically greatest element, i.e. `sorted(names)[-1]`. -/
def maxLexStr : List String → Option String
  | [] => none
  | x :: xs => some (xs.foldl (fun a b => if strLt a b then b else a) x)

/-- The snapshot directory names, `[d for d in listdir if d.startswith("snapshot_")]`. -/
def snapshotNames (snaps : FSEntries) : List String :=
  (namesF snaps).filter (fun n => pyStartsWith n "snapshot_")

/-- `checkpoint.revert_snapshot`: pick the latest snapshot by name, delete
every non-ignored top-level entry, and copy the snapshot's entries back
(its names never collide with the kept ignored names for snapshots made by
`save_snapshot`, whose trees contain no ignored names). -/
def revert_snapshot (repo_path : String) (root : FSNode) : String × FSNode :=
  match root with
  | .file _ => ("Error: No snapshots directory found.", root)
  | .dir es =>
    match getEntryF "snapshots" es with
    | none => ("Error: No snapshots directory found.", root)
    | some (.file _) => ("Error reverting snapshot: snapshots is not a directory", root)
    | some (.dir snaps) =>
      match maxLexStr (snapshotNames snaps) with
      | none => ("Error: No snapshots to revert to.", root)
      | some latest =>
        match getEntryF latest snaps with
        | some (.dir snapEs) =>
          ("Successfully reverted to " ++ repo_path ++ "/snapshots/" ++ latest,
           .dir (appendF (keepIgnoredF es) snapEs))
        | some (.file _) => ("Error reverting snapshot: snapshot is not a directory", root)
        | none => ("Error reverting snapshot: snapshot disappeared", root)

/-! ## The experience-pool readers (`experience_pool.py`) -/

/-- The default store value `\x7b"entries": []\x7d`. -/
def default_store : JVal := .obj [("entries", .arr [])]

/-- `ExperiencePool._read_file`: parse the backing file, degrading a
missing file or any parse failure to the default store value. -/
def ep_read_file (contents : Option String) : JVal :=
  match contents with
  | none => default_store
  | some s => (json_loads s).getD default_store

/-- The five backing files, each `none` when missing. -/
structure StoreFiles where
  breakthroughs : Option String
  hypotheses : Option String
  pitfalls : Option String
  logs : Option String
  results : Option String

/-- `ExperiencePool.get_all_context`: read all five stores (total — it
never raises, whatever the files hold). -/
def get_all_context (f : StoreFiles) : JVal :=
  .obj [ ("breakthroughs", ep_read_file f.breakthroughs)
       , ("hypotheses", ep_read_file f.hypotheses)
       , ("pitfalls", ep_read_file f.pitfalls)
       , ("logs", ep_read_file f.logs)
       , ("results", ep_read_file f.results) ]

/-- The comprehension filter of `get_completed_hypotheses`. -/
def filterCompleted : List JVal → Except PyErr (List JVal)
  | [] => .ok []
  | h :: t => do
    let st ← pyGetD h "status" .null
    let rest ← filterCompleted t
    pure (if pyEq st (.str "completed") then h :: rest else rest)

/-- `ExperiencePool.get_completed_hypotheses`. -/
def get_completed_hypotheses (hypothesesFile : Option String) : Except PyErr (List JVal) := do
  let data := ep_read_file hypothesesFile
  let cands ← pyGetD data "candidates" (.arr [])
  let items ← pyIterate cands
  filterCompleted items

/-- The comprehension filter of `get_successful_results`. -/
def filterAcceptedResults : List JVal → Except PyErr (List JVal)
  | [] => .ok []
  | r :: t => do
    let res ← pyGetD r "result" (.obj [])
    let acc ← pyGetD res "accepted" .null
    let rest ← filterAcceptedResults t
    pure (if pyTruthy acc then r :: rest else rest)

/-- `ExperiencePool.get_successful_results`. -/
def get_successful_results (resultsFile : Option String) : Except PyErr (List JVal) := do
  let data := ep_read_file resultsFile
  let entries ← pyGetD data "entries" (.arr [])
  let items ← pyIterate entries
  filterAcceptedResults items

/-- `ExperiencePool.get_pitfalls_summary`. -/
def get_pitfalls_summary (pitfallsFile : Option String) : Except PyErr JVal :=
  pyGetD (ep_read_file pitfallsFile) "entries" (.arr [])

/-- `ExperiencePool.get_breakthroughs_summary`. -/
def get_breakthroughs_summary (breakthroughsFile : Option String) : Except PyErr JVal :=
  pyGetD (ep_read_file breakthroughsFile) "entries" (.arr [])

/-! ## Theorems

Each claim of the specification is settled by one theorem below (with a
witness instantiation when the theorem has hypotheses, and a
counterexample where the claim fails as stated). -/

/-- A convenient empty pool (fresh stores as `_initialize` writes them). -/
def emptyPool : Pool := ⟨[], .obj [("entries", .arr [])], [], [], []⟩

/-- Extract a string-valued field of a JSON object. -/
def getStrField (v : JVal) (k : String) : Option String :=
  match v with
  | .obj fs =>
    match objLookup k fs with
    | some (.str s) => some s
    | _ => none
  | _ => none

/-- If some forbidden pattern matches, `findForbidden` reports a matching
pattern (the first in list order). -/
theorem findForbidden_of_exists (cmd : String) :
    ∀ l : List (String × List RE), (∃ pr ∈ l, reSearch pr.2 cmd = true) →
      ∃ pr ∈ l, reSearch pr.2 cmd = true ∧ findForbidden l cmd = some pr.1 := by
  intro l
  induction l with
  | nil => rintro ⟨pr, h, -⟩; exact absurd h (List.not_mem_nil pr)
  | cons hd tl ih =>
    obtain ⟨nm, pat⟩ := hd
    rintro ⟨pr, hmem, hsearch⟩
    by_cases hh : reSearch pat cmd = true
    · exact ⟨(nm, pat), List.mem_cons_self _ _, hh, by simp [findForbidden, hh]⟩
    · rcases List.mem_cons.mp hmem with rfl | htl
      · exact absurd hsearch hh
      · obtain ⟨pr', hm', hs', hf'⟩ := ih ⟨pr, htl, hsearch⟩
        exact ⟨pr', List.mem_cons_of_mem _ hm',
          hs', by simp [findForbidden, hh, hf']⟩

/-- C2: every command matching one of the forbidden patterns (privilege
escalation, filesystem-destroying, or recursive-delete commands) makes
`run_terminal` return the blocked-pattern error string naming the matched
pattern, and no subprocess is ever launched for it. -/
theorem run_terminal_blocks_forbidden (venvDir : Option String) (osIsNt : Bool)
    (subproc : String → SubprocRes) (command : String)
    (h : ∃ pr ∈ forbidden_patterns, reSearch pr.2 command = true) :
    ∃ pr ∈ forbidden_patterns, reSearch pr.2 command = true ∧
      run_terminal true venvDir osIsNt subproc command =
        ⟨"Error: Command blocked for safety. Forbidden pattern detected: " ++ pr.1, false⟩ := by
  obtain ⟨pr, hmem, hsearch, hfind⟩ := findForbidden_of_exists command forbidden_patterns h
  exact ⟨pr, hmem, hsearch, by simp [run_terminal, hfind]⟩

/-- Witness for C2 at the concrete command `"sudo rm -rf tmp"`. -/
theorem run_terminal_blocks_forbidden_witness :
    ∃ pr ∈ forbidden_patterns, reSearch pr.2 "sudo rm -rf tmp" = true ∧
      run_terminal true none false (fun _ => SubprocRes.completed "" "") "sudo rm -rf tmp" =
        ⟨"Error: Command blocked for safety. Forbidden pattern detected: " ++ pr.1, false⟩ :=
  run_terminal_blocks_forbidden none false (fun _ => SubprocRes.completed "" "") "sudo rm -rf tmp"
    ⟨("\\bsudo\\b", wordPat ['s', 'u', 'd', 'o']), by decide, by decide⟩

/-- `splitSeg` always yields at least one segment. -/
theorem splitSeg_ne_nil (cs : List Char) : splitSeg cs ≠ [] := by
  induction cs with
  | nil => simp [splitSeg]
  | cons c cs ih =>
    by_cases h : (c == '/') = true
    · simp [splitSeg, h]
    · simp only [splitSeg, h, if_false]
      cases hs : splitSeg cs with
      | nil => exact absurd hs ih
      | cons s rest => simp

/-- The head segment of a split is a leading segment of the characters. -/
theorem splitSeg_head_leads (cs : List Char) :
    ∀ s rest, splitSeg cs = s :: rest → leadsList s cs = true := by
  induction cs with
  | nil =>
    intro s rest h
    simp only [splitSeg] at h
    injection h with h1 _
    subst h1
    rfl
  | cons c cs ih =>
    intro s rest h
    by_cases hc : (c == '/') = true
    · simp only [splitSeg, hc, if_true] at h
      injection h with h1 _
      subst h1
      rfl
    · simp only [splitSeg, hc, if_false] at h
      cases hs : splitSeg cs with
      | nil => exact absurd hs (splitSeg_ne_nil cs)
      | cons s' rest' =>
        rw [hs] at h
        injection h with h1 _
        subst h1
        simp only [leadsList, beq_self_eq_true, Bool.true_and]
        exact ih s' rest' hs

/-- Every segment of a split occurs contiguously in the characters. -/
theorem mem_splitSeg_infixAt (cs : List Char) :
    ∀ s ∈ splitSeg cs, infixAt s cs = true := by
  induction cs with
  | nil =>
    intro s hs
    simp only [splitSeg, List.mem_singleton] at hs
    subst hs
    rfl
  | cons c cs ih =>
    intro s hs
    by_cases hc : (c == '/') = true
    · simp only [splitSeg, hc, if_true, List.mem_cons] at hs
      rcases hs with rfl | hs
      · rfl
      · have := ih s hs
        simp [infixAt, this]
    · simp only [splitSeg, hc, if_false] at hs
      cases hsplit : splitSeg cs with
      | nil => exact absurd hsplit (splitSeg_ne_nil cs)
      | cons s' rest' =>
        rw [hsplit] at hs
        rcases List.mem_cons.mp hs with rfl | hmem
        · have hlead := splitSeg_head_leads cs s' rest' hsplit
          simp [infixAt, leadsList, hlead]
        · have : s ∈ splitSeg cs := by rw [hsplit]; exact List.mem_cons_of_mem _ hmem
          have := ih s this
          simp [infixAt, this]

/-- A parent-directory segment forces the Python substring test `".." in
path` to succeed. -/
theorem hasParentSegment_strIn (p : String) (h : hasParentSegment p = true) :
    strIn ".." p = true := by
  unfold hasParentSegment at h
  rw [List.any_eq_true] at h
  obtain ⟨s, hmem, heq⟩ := h
  rw [beq_iff_eq] at heq
  subst heq
  exact mem_splitSeg_infixAt p.data _ hmem

/-- C3: a path with a parent-directory segment or a leading separator makes
`read_file` return the access-denied string without reading, and an input
whose parsed-and-stripped path component has a parent-directory segment or
a leading separator makes `write_file` perform no write, leave the
filesystem unchanged, and return an access-denied string. -/
theorem path_guard_denies (fs : String → Option String) (wfs : List (String × String))
    (can_write : Bool) (p input : String)
    (hbadR : hasParentSegment p = true ∨ pyStartsWith p "/" = true)
    (hsep : strIn "|" input = true)
    (hbadW : hasParentSegment (pyStrip (splitFirstBar input).1) = true ∨
             pyStartsWith (pyStrip (splitFirstBar input).1) "/" = true) :
    read_file fs p = ⟨"Error: Access denied.", false⟩ ∧
    (write_file can_write wfs input).performedWrite = false ∧
    (write_file can_write wfs input).fs = wfs ∧
    ((write_file can_write wfs input).output = "Error: Write access denied." ∨
     (write_file can_write wfs input).output = "Error: Access denied (External path).") := by
  have hcondR : (strIn ".." p || pyStartsWith p "/") = true := by
    rcases hbadR with h | h
    · simp [hasParentSegment_strIn p h]
    · simp [h]
  have hcondW : (strIn ".." (pyStrip (splitFirstBar input).1) ||
      pyStartsWith (pyStrip (splitFirstBar input).1) "/") = true := by
    rcases hbadW with h | h
    · simp [hasParentSegment_strIn _ h]
    · simp [h]
  refine ⟨by simp [read_file, hcondR], ?_, ?_, ?_⟩ <;>
    cases can_write <;> simp [write_file, hsep, hcondW]

/-- Witness for C3 at `"../secret"` and write input `"  ../x |data"`. -/
theorem path_guard_denies_witness :
    read_file (fun _ => some "top secret") "../secret" = ⟨"Error: Access denied.", false⟩ ∧
    (write_file true [("a.txt", "keep")] "  ../x |data").performedWrite = false ∧
    (write_file true [("a.txt", "keep")] "  ../x |data").fs = [("a.txt", "keep")] ∧
    ((write_file true [("a.txt", "keep")] "  ../x |data").output = "Error: Write access denied." ∨
     (write_file true [("a.txt", "keep")] "  ../x |data").output = "Error: Access denied (External path).") :=
  path_guard_denies (fun _ => some "top secret") [("a.txt", "keep")] true "../secret" "  ../x |data"
    (Or.inl (by decide)) (by decide) (Or.inl (by decide))

/-- `firstIdx` finds the first occurrence. -/
theorem firstIdx_spec (c : Char) :
    ∀ s : List Char, ∀ i, firstIdx c s = some i →
      s.get? i = some c ∧ ∀ k, k < i → s.get? k ≠ some c := by
  intro s
  induction s with
  | nil => intro i h; exact absurd h (by simp [firstIdx])
  | cons x xs ih =>
    intro i h
    by_cases hx : (x == c) = true
    · simp only [firstIdx, hx, if_true] at h
      injection h with h1
      subst h1
      have hxc : x = c := beq_iff_eq.mp hx
      exact ⟨by simp [List.get?, hxc], fun k hk => absurd hk (by omega)⟩
    · simp only [firstIdx, hx, if_false] at h
      cases hf : firstIdx c xs with
      | none => rw [hf] at h; exact absurd h (by simp)
      | some j =>
        rw [hf] at h
        simp only [Option.map_some'] at h
        injection h with h1
        subst h1
        obtain ⟨hget, hbefore⟩ := ih j hf
        refine ⟨by simpa [List.get?] using hget, ?_⟩
        intro k hk
        cases k with
        | zero =>
          simp only [List.get?]
          intro hcontra
          injection hcontra with hxc
          exact hx (beq_iff_eq.mpr hxc)
        | succ m =>
          simp only [List.get?]
          exact hbefore m (by omega)

/-- `lastIdx` misses only when the character is absent. -/
theorem lastIdx_none (c : Char) :
    ∀ s : List Char, lastIdx c s = none → ∀ k, s.get? k ≠ some c := by
  intro s
  induction s with
  | nil => intro _ k; simp [List.get?]
  | cons x xs ih =>
    intro h k
    have hxs : lastIdx c xs = none := by
      cases hl : lastIdx c xs with
      | none => rfl
      | some i => rw [lastIdx, hl] at h; exact absurd h (by simp)
    have hx : (x == c) = false := by
      cases hxe : (x == c) with
      | false => rfl
      | true => rw [lastIdx, hxs, hxe] at h; exact absurd h (by simp)
    cases k with
    | zero =>
      simp only [List.get?]
      intro hcontra
      injection hcontra with hxc
      rw [hxc] at hx
      simp at hx
    | succ m => exact ih hxs m

/-- `lastIdx` finds the last occurrence. -/
theorem lastIdx_spec (c : Char) :
    ∀ s : List Char, ∀ j, lastIdx c s = some j →
      s.get? j = some c ∧ ∀ k, j < k → s.get? k ≠ some c := by
  intro s
  induction s with
  | nil => intro j h; exact absurd h (by simp [lastIdx])
  | cons x xs ih =>
    intro j h
    cases hl : lastIdx c xs with
    | some i =>
      rw [lastIdx, hl] at h
      injection h with h1
      subst h1
      obtain ⟨hget, hafter⟩ := ih i hl
      refine ⟨by simpa [List.get?] using hget, ?_⟩
      intro k hk
      cases k with
      | zero => exact absurd hk (by omega)
      | succ m =>
        simp only [List.get?]
        exact hafter m (by omega)
    | none =>
      rw [lastIdx, hl] at h
      by_cases hx : (x == c) = true
      · rw [hx] at h
        simp only [if_true] at h
        injection h with h1
        subst h1
        have hxc : x = c := beq_iff_eq.mp hx
        refine ⟨by simp [List.get?, hxc], ?_⟩
        intro k hk
        cases k with
        | zero => exact absurd hk (by omega)
        | succ m => exact lastIdx_none c xs hl m
      · rw [eq_false_of_ne_true hx] at h
        exact absurd h (by simp)

/-- The substring test for a one-character pattern is occurrence of that
character, i.e. success of `firstIdx`. -/
theorem infixAt_single_iff_firstIdx (c : Char) :
    ∀ s : List Char, infixAt [c] s = true ↔ (firstIdx c s).isSome := by
  intro s
  induction s with
  | nil => simp [infixAt, leadsList, firstIdx]
  | cons x xs ih =>
    by_cases hx : (x == c) = true
    · have hcx : (c == x) = true := beq_iff_eq.mpr (beq_iff_eq.mp hx).symm
      simp [infixAt, leadsList, firstIdx, hx, hcx]
    · have hcx : (c == x) = false := by
        cases hce : (c == x) with
        | false => rfl
        | true => exact absurd (beq_iff_eq.mpr (beq_iff_eq.mp hce).symm) (by simp [hx])
      simp only [infixAt, leadsList, hcx, Bool.false_and, Bool.false_or,
        firstIdx, hx, if_false]
      rw [ih]
      cases firstIdx c xs <;> simp

/-- `lastIdx` succeeds exactly when `firstIdx` does. -/
theorem lastIdx_isSome_iff_firstIdx (c : Char) :
    ∀ s : List Char, (lastIdx c s).isSome ↔ (firstIdx c s).isSome := by
  intro s
  induction s with
  | nil => simp [lastIdx, firstIdx]
  | cons x xs ih =>
    cases hl : lastIdx c xs with
    | some i =>
      have hfs : (firstIdx c xs).isSome := ih.mp (by simp [hl])
      cases hf : firstIdx c xs with
      | none => rw [hf] at hfs; simp at hfs
      | some j =>
        by_cases hx : (x == c) = true <;>
          simp [lastIdx, firstIdx, hl, hf, hx]
    | none =>
      have hfn : firstIdx c xs = none := by
        cases hf : firstIdx c xs with
        | none => rfl
        | some j =>
          have := ih.mpr (by simp [hf])
          rw [hl] at this
          simp at this
      by_cases hx : (x == c) = true <;>
        simp [lastIdx, firstIdx, hl, hfn, hx]

/-- C4 counterexample: on a braceless planner text the default verdict has
findings `"Could not parse evaluation"` and recommendations
`"Review manually"` — not `"parse failed"` / `"review manually"` as the
claim states. -/
theorem evaluation_verdict_default_strings_counterexample :
    evaluation_verdict "the run failed" = default_verdict_no_braces "the run failed" ∧
    getStrField (evaluation_verdict "the run failed") "findings" = some "Could not parse evaluation" ∧
    (some "Could not parse evaluation" : Option String) ≠ some "parse failed" ∧
    getStrField (evaluation_verdict "the run failed") "recommendations" = some "Review manually" ∧
    (some "Review manually" : Option String) ≠ some "review manually" :=
  ⟨rfl, rfl, by decide, rfl, by decide⟩

/-- C4 (amended): the verdict is the substring from the first `{` to the
last `}` parsed as JSON; a missing brace yields the default verdict with
findings `"Could not parse evaluation"`, a parse failure the same with
findings `"Evaluation parsing failed"`, both with accepted `false`,
confidence `0.0`, the raw text as evidence and recommendations
`"Review manually"`; the extraction-and-default logic itself is total. -/
theorem evaluation_verdict_amended (result : String) :
    ((strIn "\x7b" result && strIn "\x7d" result) = false →
      evaluation_verdict result = default_verdict_no_braces result) ∧
    (∀ v, (strIn "\x7b" result && strIn "\x7d" result) = true →
      json_loads (extract_braces result) = some v → evaluation_verdict result = v) ∧
    ((strIn "\x7b" result && strIn "\x7d" result) = true →
      json_loads (extract_braces result) = none →
      evaluation_verdict result = default_verdict_parse_failed result) ∧
    (strIn "\x7b" result = true → ∃ i, firstIdx lbraceChar result.data = some i) ∧
    (strIn "\x7d" result = true → ∃ j, lastIdx rbraceChar result.data = some j) ∧
    (∀ i j, firstIdx lbraceChar result.data = some i → lastIdx rbraceChar result.data = some j →
      extract_braces result = String.mk (pySlice i (j + 1) result.data) ∧
      result.data.get? i = some lbraceChar ∧
      (∀ k, k < i → result.data.get? k ≠ some lbraceChar) ∧
      result.data.get? j = some rbraceChar ∧
      (∀ k, j < k → result.data.get? k ≠ some rbraceChar)) := by
  refine ⟨?_, ?_, ?_, ?_, ?_, ?_⟩
  · intro h
    simp [evaluation_verdict, h]
  · intro v hb hj
    simp [evaluation_verdict, hb, hj]
  · intro hb hj
    simp [evaluation_verdict, hb, hj]
  · intro h
    have : infixAt [lbraceChar] result.data = true := h
    rw [infixAt_single_iff_firstIdx] at this
    exact ⟨(firstIdx lbraceChar result.data).get this, by simp⟩
  · intro h
    have h1 : infixAt [rbraceChar] result.data = true := h
    rw [infixAt_single_iff_firstIdx] at h1
    have h2 : (lastIdx rbraceChar result.data).isSome :=
      (lastIdx_isSome_iff_firstIdx rbraceChar result.data).mpr h1
    exact ⟨(lastIdx rbraceChar result.data).get h2, by simp⟩
  · intro i j hi hj
    obtain ⟨hgi, hbi⟩ := firstIdx_spec lbraceChar result.data i hi
    obtain ⟨hgj, haj⟩ := lastIdx_spec rbraceChar result.data j hj
    exact ⟨by simp [extract_braces, hi, hj], hgi, hbi, hgj, haj⟩

/-- Witness for C4 (amended) at the specification's example text: the
embedded JSON verdict is extracted and parsed from the prose. -/
theorem evaluation_verdict_amended_witness :
    evaluation_verdict "Some prose \x7b\"accepted\": true, \"confidence\": 0.8, \"evidence\": \"x\", \"findings\": \"y\", \"recommendations\": \"z\"\x7d trailing" =
      .obj [ ("accepted", .bool true), ("confidence", .num (mkRat 8 10)), ("evidence", .str "x")
           , ("findings", .str "y"), ("recommendations", .str "z") ] :=
  (evaluation_verdict_amended _).2.1 _ rfl rfl

/-- The `str(e)` text of the `TypeError` every pipeline phase raises. -/
def working_dir_type_error : String := "__init__() got an unexpected keyword argument working_dir"

/-- C1: every pipeline run passes `working_dir` to `BaseAgent.__init__`,
which does not accept it, so the hypothesis phase raises `TypeError`; the
top-level handler records a crash pitfall, the workspace is cleaned up,
and `run_full_pipeline` returns null — on every run, regardless of the
planner oracle or the pool state. -/
theorem run_full_pipeline_always_null (nowIso nowId : String) (work : PhaseOracle)
    (agent_id workspace_dir : String) (p : Pool) :
    "working_dir" ∈ pipeline_agent_kwargs ∧
    "working_dir" ∉ baseAgentInitParams ∧
    baseAgentInit pipeline_agent_kwargs = .error (.typeError working_dir_type_error) ∧
    (run_hypothesis_phase nowIso nowId work agent_id ⟨none, none, none, none⟩
        (add_log nowIso agent_id "pipeline" "Starting full pipeline" "info"
          (setup_isolated_workspace nowIso agent_id (workspace_dir ++ "/agent_" ++ agent_id) p).1)).1
      = .error (.typeError working_dir_type_error) ∧
    (run_full_pipeline nowIso nowId work agent_id workspace_dir p).1 = none ∧
    (run_full_pipeline nowIso nowId work agent_id workspace_dir p).2.2.2 = false ∧
    (run_full_pipeline nowIso nowId work agent_id workspace_dir p).2.2.1.pitfalls =
      p.pitfalls ++ [pitfallObj nowIso agent_id none
        ("Pipeline crashed: " ++ working_dir_type_error) (some working_dir_type_error)] := by
  refine ⟨by decide, by decide, rfl, rfl, rfl, rfl, rfl⟩

/-- C5 (supporting theorem for a code bug): the coding-phase failure logic
does record exactly one pitfall carrying the run's hypothesis id and the
failure text and short-circuits, as specified — but it is unreachable: the
pipeline crashes in the hypothesis phase before any coding work, its
outcome is independent of every planner oracle, and the only pitfall it
ever records is the crash pitfall whose `hypothesis_id` is null. -/
theorem coding_failure_unreachable (nowIso agent_id : String) (hid : Option String)
    (result : String) (p : Pool)
    (hfail : result = "" ∨ strIn "False" result = true) :
    (run_coding_decision nowIso agent_id hid result p).1 = false ∧
    (run_coding_decision nowIso agent_id hid result p).2.pitfalls =
      p.pitfalls ++ [pitfallObj nowIso agent_id hid "Coding phase failed" (some result)] ∧
    (∀ nowId work work' workspace_dir p',
      run_full_pipeline nowIso nowId work agent_id workspace_dir p' =
        run_full_pipeline nowIso nowId work' agent_id workspace_dir p') ∧
    (∀ nowId work workspace_dir p',
      (run_full_pipeline nowIso nowId work agent_id workspace_dir p').1 = none ∧
      (run_full_pipeline nowIso nowId work agent_id workspace_dir p').2.2.1.pitfalls =
        p'.pitfalls ++ [pitfallObj nowIso agent_id none
          ("Pipeline crashed: " ++ working_dir_type_error) (some working_dir_type_error)]) := by
  have hcond : (result != "" && !strIn "False" result) = false := by
    rcases hfail with rfl | h
    · simp
    · simp [h]
  refine ⟨?_, ?_, ?_, ?_⟩
  · simp [run_coding_decision, hcond, add_log]
  · simp [run_coding_decision, hcond, add_log, add_pitfall]
  · intro nowId work work' workspace_dir p'
    rfl
  · intro nowId work workspace_dir p'
    exact ⟨rfl, rfl⟩

/-- Witness for C5 at the failure sentinel `"False"`. -/
theorem coding_failure_unreachable_witness :
    (run_coding_decision "t0" "agent_1_0" (some "hyp_t_agent_1_0") "False" emptyPool).1 = false ∧
    (run_coding_decision "t0" "agent_1_0" (some "hyp_t_agent_1_0") "False" emptyPool).2.pitfalls =
      [pitfallObj "t0" "agent_1_0" (some "hyp_t_agent_1_0") "Coding phase failed" (some "False")] ∧
    (run_full_pipeline "t0" "ts0" ⟨"a", "b", "c", "d", "e", "f"⟩ "agent_1_0" "agent_workspaces" emptyPool).1 = none :=
  let h := coding_failure_unreachable "t0" "agent_1_0" (some "hyp_t_agent_1_0") "False" emptyPool
    (Or.inr (by decide))
  ⟨h.1, h.2.1, (h.2.2.2 "ts0" ⟨"a", "b", "c", "d", "e", "f"⟩ "agent_workspaces" emptyPool).1⟩

/-- C6 counterexample: the planner text `"All False positives"` is
non-empty and is not the failure sentinel `"False"`, yet the hypothesis
phase logic reports failure and records no hypothesis, because the source
tests `"False" not in result` (substring), not equality with the
sentinel. -/
theorem hypothesis_decision_substring_counterexample :
    ("All False positives" : String) ≠ "" ∧
    ("All False positives" : String) ≠ "False" ∧
    (run_hypothesis_decision "t0" "ts0" "agent_1_0" "All False positives"
      ⟨none, none, none, none⟩ emptyPool).1 = .ok false ∧
    (run_hypothesis_decision "t0" "ts0" "agent_1_0" "All False positives"
      ⟨none, none, none, none⟩ emptyPool).2.2.hypothesesData = emptyPool.hypothesesData ∧
    (run_hypothesis_decision "t0" "ts0" "agent_1_0" "All False positives"
      ⟨none, none, none, none⟩ emptyPool).2.1.hypothesis_id = none :=
  ⟨by decide, by decide, rfl, rfl, rfl⟩

/-- C6 (amended): the hypothesis-phase logic records a new hypothesis with
status `in_progress` (and reports success) exactly when the planner result
is non-empty and does not contain the failure sentinel `"False"` as a
substring; otherwise it reports failure and records nothing. -/
theorem hypothesis_decision_amended (nowIso nowId agent_id text : String)
    (v : PipeVars) (p : Pool) (fs : List (String × JVal)) (cs : List JVal)
    (hdata : p.hypothesesData = .obj fs)
    (hc : objLookup "candidates" fs = some (.arr cs)) :
    (text ≠ "" → strIn "False" text = false →
      (run_hypothesis_decision nowIso nowId agent_id text v p).1 = .ok true ∧
      (run_hypothesis_decision nowIso nowId agent_id text v p).2.1.hypothesis_id =
        some ("hyp_" ++ nowId ++ "_" ++ agent_id) ∧
      (run_hypothesis_decision nowIso nowId agent_id text v p).2.2.hypothesesData =
        .obj (objSet "candidates"
          (.arr (cs ++ [hypothesisObj ("hyp_" ++ nowId ++ "_" ++ agent_id) nowIso agent_id text "in_progress"]))
          fs)) ∧
    (text = "" ∨ strIn "False" text = true →
      (run_hypothesis_decision nowIso nowId agent_id text v p).1 = .ok false ∧
      (run_hypothesis_decision nowIso nowId agent_id text v p).2.2.hypothesesData =
        p.hypothesesData ∧
      (run_hypothesis_decision nowIso nowId agent_id text v p).2.1.hypothesis_id =
        v.hypothesis_id) := by
  constructor
  · intro hne hsub
    have hcond : (text != "" && !strIn "False" text) = true := by simp [hne, hsub]
    refine ⟨?_, ?_, ?_⟩ <;>
      simp [run_hypothesis_decision, hcond, add_hypothesis, hdata, hc, add_log]
  · intro hfail
    have hcond : (text != "" && !strIn "False" text) = false := by
      rcases hfail with rfl | h
      · simp
      · simp [h]
    refine ⟨?_, ?_, ?_⟩ <;> simp [run_hypothesis_decision, hcond, add_log]

/-- Witness for C6 (amended) at the text `"Add caching"` over a store with
one existing candidate. -/
theorem hypothesis_decision_amended_witness :
    (run_hypothesis_decision "t1" "ts1" "agent_1_1" "Add caching"
      ⟨none, none, none, none⟩
      ⟨[], .obj [("entries", .arr []), ("candidates", .arr [.obj [("id", .str "hyp_old")]])], [], [], []⟩).1
      = .ok true ∧
    (run_hypothesis_decision "t1" "ts1" "agent_1_1" "Add caching"
      ⟨none, none, none, none⟩
      ⟨[], .obj [("entries", .arr []), ("candidates", .arr [.obj [("id", .str "hyp_old")]])], [], [], []⟩).2.2.hypothesesData
      = .obj [("entries", .arr []), ("candidates", .arr
          [ .obj [("id", .str "hyp_old")]
          , hypothesisObj "hyp_ts1_agent_1_1" "t1" "agent_1_1" "Add caching" "in_progress" ])] := by
  have h := (hypothesis_decision_amended "t1" "ts1" "agent_1_1" "Add caching"
    ⟨none, none, none, none⟩
    ⟨[], .obj [("entries", .arr []), ("candidates", .arr [.obj [("id", .str "hyp_old")]])], [], [], []⟩
    [("entries", .arr []), ("candidates", .arr [.obj [("id", .str "hyp_old")]])]
    [.obj [("id", .str "hyp_old")]] rfl rfl).1 (by decide) (by decide)
  exact ⟨h.1, by rw [h.2.2]; rfl⟩

/-- The accepted-filter keeps exactly the results whose evaluation flags
`accepted` (in order). -/
theorem acceptedFilter_spec :
    ∀ results acc : List JVal, acceptedFilter results = .ok acc →
      (∀ r ∈ acc, r ∈ results ∧ resultAcceptedTruthy r = .ok true) ∧
      (∀ r ∈ results, resultAcceptedTruthy r = .ok true → r ∈ acc) := by
  intro results
  induction results with
  | nil =>
    intro acc h
    simp only [acceptedFilter] at h
    injection h with h1
    subst h1
    exact ⟨fun r hr => absurd hr (List.not_mem_nil r), fun r hr => absurd hr (List.not_mem_nil r)⟩
  | cons r t ih =>
    intro acc h
    simp only [acceptedFilter, Bind.bind, Except.bind] at h
    cases hR : resultAcceptedTruthy r with
    | error e => rw [hR] at h; exact absurd h (by simp)
    | ok b =>
      rw [hR] at h
      cases hT : acceptedFilter t with
      | error e => rw [hT] at h; exact absurd h (by simp)
      | ok rest =>
        rw [hT] at h
        simp only [Except.pure, pure] at h
        injection h with h1
        obtain ⟨ihl, ihr⟩ := ih rest hT
        cases b with
        | true =>
          subst h1
          constructor
          · intro x hx
            rcases List.mem_cons.mp hx with rfl | hx
            · exact ⟨List.mem_cons_self _ _, hR⟩
            · obtain ⟨hm, ha⟩ := ihl x hx
              exact ⟨List.mem_cons_of_mem _ hm, ha⟩
          · intro x hx ha
            rcases List.mem_cons.mp hx with rfl | hx
            · exact List.mem_cons_self _ _
            · exact List.mem_cons_of_mem _ (ihr x hx ha)
        | false =>
          subst h1
          constructor
          · intro x hx
            obtain ⟨hm, ha⟩ := ihl x hx
            exact ⟨List.mem_cons_of_mem _ hm, ha⟩
          · intro x hx ha
            rcases List.mem_cons.mp hx with rfl | hx
            · rw [hR] at ha
              injection ha with hb
              exact absurd hb (by simp)
            · exact ihr x hx ha

/-- The `max(..., key=confidence)` fold succeeds on numeric confidences
and returns an element whose confidence dominates all others (the first
such element, on ties). -/
theorem pyMaxGo_max :
    ∀ (t : List JVal) (best : JVal) (qbest : ℚ),
      resultConfidence best = .ok (.num qbest) →
      (∀ y ∈ t, ∃ q : ℚ, resultConfidence y = .ok (.num q)) →
      ∃ b, pyMaxGo best t = .ok b ∧ (b = best ∨ b ∈ t) ∧
        ∃ qb : ℚ, resultConfidence b = .ok (.num qb) ∧ qbest ≤ qb ∧
          ∀ y ∈ t, ∀ qy : ℚ, resultConfidence y = .ok (.num qy) → qy ≤ qb := by
  intro t
  induction t with
  | nil =>
    intro best qbest hbest _
    exact ⟨best, rfl, Or.inl rfl, qbest, hbest, le_refl _,
      fun y hy => absurd hy (List.not_mem_nil y)⟩
  | cons y t ih =>
    intro best qbest hbest hnum
    obtain ⟨qy, hy⟩ := hnum y (List.mem_cons_self _ _)
    have hnumt : ∀ z ∈ t, ∃ q : ℚ, resultConfidence z = .ok (.num q) :=
      fun z hz => hnum z (List.mem_cons_of_mem _ hz)
    by_cases hlt : qbest < qy
    · obtain ⟨b, hgo, hmem, qb, hqb, hle, hall⟩ := ih y qy hy hnumt
      refine ⟨b, ?_, ?_, qb, hqb, le_of_lt (lt_of_lt_of_le hlt hle), ?_⟩
      · simp only [pyMaxGo, Bind.bind, Except.bind, hy, hbest, pyGtJ]
        rw [decide_eq_true hlt]
        simpa using hgo
      · rcases hmem with rfl | hm
        · exact Or.inr (List.mem_cons_self _ _)
        · exact Or.inr (List.mem_cons_of_mem _ hm)
      · intro z hz qz hqz
        rcases List.mem_cons.mp hz with rfl | hz
        · rw [hy] at hqz
          injection hqz with h1
          injection h1 with h2
          subst h2
          exact hle
        · exact hall z hz qz hqz
    · obtain ⟨b, hgo, hmem, qb, hqb, hle, hall⟩ := ih best qbest hbest hnumt
      refine ⟨b, ?_, ?_, qb, hqb, hle, ?_⟩
      · simp only [pyMaxGo, Bind.bind, Except.bind, hy, hbest, pyGtJ]
        rw [decide_eq_false hlt]
        simpa using hgo
      · rcases hmem with rfl | hm
        · exact Or.inl rfl
        · exact Or.inr (List.mem_cons_of_mem _ hm)
      · intro z hz qz hqz
        rcases List.mem_cons.mp hz with rfl | hz
        · rw [hy] at hqz
          injection hqz with h1
          injection h1 with h2
          subst h2
          exact le_trans (le_of_not_lt hlt) hle
        · exact hall z hz qz hqz

/-- C7: the synthesis step filters the collected results to those whose
evaluation flags `accepted`; with none accepted it returns null (so no
improvement is applied that iteration); otherwise its
`max(..., key=confidence)` selection returns an accepted result of
maximal confidence. -/
theorem synthesis_selects_max_confidence (nowIso : String) (render : JVal → String)
    (synth_work : String) (results : List JVal) (p : Pool) (acc : List JVal)
    (hA : acceptedFilter results = .ok acc)
    (hnum : ∀ y ∈ acc, ∃ q : ℚ, resultConfidence y = .ok (.num q)) :
    (∀ r ∈ acc, r ∈ results ∧ resultAcceptedTruthy r = .ok true) ∧
    (∀ r ∈ results, resultAcceptedTruthy r = .ok true → r ∈ acc) ∧
    (acc = [] → (synthesize_improvements nowIso render synth_work results p).1 = .ok none) ∧
    (acc ≠ [] → ∃ b, pyMaxByConf acc = .ok b ∧ b ∈ acc ∧
      resultAcceptedTruthy b = .ok true ∧
      ∃ qb : ℚ, resultConfidence b = .ok (.num qb) ∧
        ∀ y ∈ acc, ∀ qy : ℚ, resultConfidence y = .ok (.num qy) → qy ≤ qb) := by
  obtain ⟨hkeep, hcomplete⟩ := acceptedFilter_spec results acc hA
  refine ⟨hkeep, hcomplete, ?_, ?_⟩
  · intro hempty
    subst hempty
    simp [synthesize_improvements, hA]
  · intro hne
    cases acc with
    | nil => exact absurd rfl hne
    | cons x xs =>
      obtain ⟨qx, hqx⟩ := hnum x (List.mem_cons_self _ _)
      obtain ⟨b, hgo, hmem, qb, hqb, hle, hall⟩ := pyMaxGo_max xs x qx hqx
        (fun z hz => hnum z (List.mem_cons_of_mem _ hz))
      have hbmem : b ∈ x :: xs := by
        rcases hmem with rfl | hm
        · exact List.mem_cons_self _ _
        · exact List.mem_cons_of_mem _ hm
      refine ⟨b, hgo, hbmem, (hkeep b hbmem).2, qb, hqb, ?_⟩
      intro z hz qz hqz
      rcases List.mem_cons.mp hz with rfl | hz
      · rw [hqx] at hqz
        injection hqz with h1
        injection h1 with h2
        subst h2
        exact hle
      · exact hall z hz qz hqz

/-- An accepted pipeline result with confidence 0.3. -/
def synthResA : JVal :=
  .obj [ ("agent_id", .str "agent_1_0"), ("hypothesis_id", .str "hyp_a"), ("hypothesis", .str "HA")
       , ("plan", .str "PA"), ("evaluation", .obj [("accepted", .bool true), ("confidence", .num (mkRat 3 10))]) ]

/-- An accepted pipeline result with confidence 0.9. -/
def synthResB : JVal :=
  .obj [ ("agent_id", .str "agent_1_1"), ("hypothesis_id", .str "hyp_b"), ("hypothesis", .str "HB")
       , ("plan", .str "PB"), ("evaluation", .obj [("accepted", .bool true), ("confidence", .num (mkRat 9 10))]) ]

/-- A rejected pipeline result with confidence 0.6. -/
def synthResC : JVal :=
  .obj [ ("agent_id", .str "agent_1_2"), ("hypothesis_id", .str "hyp_c"), ("hypothesis", .str "HC")
       , ("plan", .str "PC"), ("evaluation", .obj [("accepted", .bool false), ("confidence", .num (mkRat 6 10))]) ]

/-- Witness for C7: with accepted/rejected results of confidences
0.3 / 0.9 / 0.6 the filter keeps the two accepted ones and the selection
returns the accepted result with confidence 0.9. -/
theorem synthesis_selects_max_confidence_witness :
    acceptedFilter [synthResA, synthResB, synthResC] = .ok [synthResA, synthResB] ∧
    pyMaxByConf [synthResA, synthResB] = .ok synthResB ∧
    (∃ b, pyMaxByConf [synthResA, synthResB] = .ok b ∧ b ∈ [synthResA, synthResB] ∧
      resultAcceptedTruthy b = .ok true ∧
      ∃ qb : ℚ, resultConfidence b = .ok (.num qb) ∧
        ∀ y ∈ [synthResA, synthResB], ∀ qy : ℚ, resultConfidence y = .ok (.num qy) → qy ≤ qb) := by
  have h := synthesis_selects_max_confidence "t0" (fun _ => "r") "w"
    [synthResA, synthResB, synthResC] emptyPool [synthResA, synthResB] rfl
    (by
      intro y hy
      rcases List.mem_cons.mp hy with rfl | hy
      · exact ⟨mkRat 3 10, rfl⟩
      rcases List.mem_cons.mp hy with rfl | hy
      · exact ⟨mkRat 9 10, rfl⟩
      · exact absurd hy (List.not_mem_nil y))
  exact ⟨rfl, rfl, h.2.2.2 (by simp)⟩

/-- Re-reading a just-set entry returns the new node. -/
theorem getEntryF_setEntryF_self (k : String) (v : FSNode) :
    ∀ es, getEntryF k (setEntryF k v es) = some v
  | .nil => by simp [setEntryF, getEntryF]
  | .cons m t rest => by
    by_cases hm : (m == k) = true
    · simp [setEntryF, getEntryF, hm]
    · simp [setEntryF, getEntryF, hm, getEntryF_setEntryF_self k v rest]

/-- Lookup distributes over entry-list concatenation. -/
theorem getEntryF_appendF (n : String) (bs : FSEntries) :
    ∀ as, getEntryF n (appendF as bs) =
      (match getEntryF n as with
       | some t => some t
       | none => getEntryF n bs)
  | .nil => by simp [appendF, getEntryF]
  | .cons m t rest => by
    by_cases hm : (m == n) = true
    · simp [appendF, getEntryF, hm]
    · simp [appendF, getEntryF, hm, getEntryF_appendF n bs rest]

/-- The kept (ignored) entries contain no non-ignored name. -/
theorem getEntryF_keepIgnoredF (n : String) (hn : IGNORE.contains n = false) :
    ∀ es, getEntryF n (keepIgnoredF es) = none
  | .nil => by simp [keepIgnoredF, getEntryF]
  | .cons m t rest => by
    by_cases hm : IGNORE.contains m = true
    · have hmem : m ∈ IGNORE := by simpa using hm
      have hmn : (m == n) = false := by
        cases he : (m == n) with
        | false => rfl
        | true =>
          rw [beq_iff_eq] at he
          rw [he] at hm
          rw [hm] at hn
          exact absurd hn (by simp)
      simp [keepIgnoredF, hmem, getEntryF, hmn, getEntryF_keepIgnoredF n hn rest]
    · have hmem : m ∉ IGNORE := by simpa using hm
      simp [keepIgnoredF, hmem, getEntryF_keepIgnoredF n hn rest]

/-- Filtered copies keep non-ignored entries, as filtered copies. -/
theorem getEntryF_copyFilteredEntries (ign : List String) (n : String)
    (hn : ign.contains n = false) :
    ∀ es, getEntryF n (copyFilteredEntries ign es) =
      (getEntryF n es).map (copyFiltered ign)
  | .nil => by simp [copyFilteredEntries, getEntryF]
  | .cons m t rest => by
    by_cases hm : ign.contains m = true
    · have hmem : m ∈ ign := by simpa using hm
      have hmn : (m == n) = false := by
        cases he : (m == n) with
        | false => rfl
        | true =>
          rw [beq_iff_eq] at he
          rw [he] at hm
          rw [hm] at hn
          exact absurd hn (by simp)
      simp [copyFilteredEntries, hmem, getEntryF, hmn,
        getEntryF_copyFilteredEntries ign n hn rest]
    · have hmem : m ∉ ign := by simpa using hm
      by_cases hmn : (m == n) = true
      · simp [copyFilteredEntries, hmem, getEntryF, hmn]
      · simp [copyFilteredEntries, hmem, getEntryF, hmn,
          getEntryF_copyFilteredEntries ign n hn rest]

/-- A file at a fully non-ignored path survives a filtered copy with its
content. -/
theorem getPath_copyFiltered_file (ign : List String) :
    ∀ (q : List String) (t : FSNode) (c : String),
      (∀ x ∈ q, ign.contains x = false) → getPath t q = some (.file c) →
      getPath (copyFiltered ign t) q = some (.file c) := by
  intro q
  induction q with
  | nil =>
    intro t c _ h
    simp only [getPath] at h
    injection h with h1
    subst h1
    rfl
  | cons n q' ih =>
    intro t c hfree h
    cases t with
    | file _ => exact absurd h (by simp [getPath])
    | dir es =>
      simp only [getPath] at h
      cases hE : getEntryF n es with
      | none => rw [hE] at h; exact absurd h (by simp)
      | some t' =>
        rw [hE] at h
        have hn : ign.contains n = false := hfree n (List.mem_cons_self _ _)
        have hrec := ih t' c (fun x hx => hfree x (List.mem_cons_of_mem _ hx)) h
        show getPath (.dir (copyFilteredEntries ign es)) (n :: q') = some (.file c)
        simp only [getPath, getEntryF_copyFilteredEntries ign n hn es, hE, Option.map_some']
        exact hrec

/-- A fully non-ignored path absent from a tree is absent from its
filtered copy. -/
theorem getPath_copyFiltered_none (ign : List String) :
    ∀ (q : List String) (t : FSNode),
      (∀ x ∈ q, ign.contains x = false) → getPath t q = none →
      getPath (copyFiltered ign t) q = none := by
  intro q
  induction q with
  | nil => intro t _ h; exact absurd h (by simp [getPath])
  | cons n q' ih =>
    intro t hfree h
    cases t with
    | file _ => rfl
    | dir es =>
      simp only [getPath] at h
      have hn : ign.contains n = false := hfree n (List.mem_cons_self _ _)
      show getPath (.dir (copyFilteredEntries ign es)) (n :: q') = none
      simp only [getPath, getEntryF_copyFilteredEntries ign n hn es]
      cases hE : getEntryF n es with
      | none => rfl
      | some t' =>
        rw [hE] at h
        simp only [Option.map_some']
        exact ih t' (fun x hx => hfree x (List.mem_cons_of_mem _ hx)) h

/-- After the revert rebuild, lookup of a non-ignored name skips the kept
ignored entries. -/
theorem getPath_append_keep (es2 snapEs : FSEntries) (n : String) (q : List String)
    (hn : IGNORE.contains n = false) :
    getPath (.dir (appendF (keepIgnoredF es2) snapEs)) (n :: q) =
      getPath (.dir snapEs) (n :: q) := by
  simp only [getPath, getEntryF_appendF, getEntryF_keepIgnoredF n hn es2]

/-- Entry names distribute over concatenation. -/
theorem namesF_appendF (bs : FSEntries) :
    ∀ as, namesF (appendF as bs) = namesF as ++ namesF bs
  | .nil => by simp [appendF, namesF]
  | .cons m t rest => by simp [appendF, namesF, namesF_appendF bs rest]

/-- A list is a leading segment of itself followed by anything. -/
theorem leadsList_append : ∀ (a b : List Char), leadsList a (a ++ b) = true
  | [], _ => rfl
  | c :: cs, b => by simp [leadsList, leadsList_append cs b]

/-- Fresh snapshot names start with the snapshot marker. -/
theorem pyStartsWith_snapshot (ts : String) :
    pyStartsWith ("snapshot_" ++ ts) "snapshot_" = true := by
  show leadsList (String.data "snapshot_") (String.data ("snapshot_" ++ ts)) = true
  rw [String.data_append]
  exact leadsList_append _ _

/-- The left-max fold returns the dominating last element. -/
theorem foldl_max_append_last (m : String) :
    ∀ (xs : List String) (acc : String), strLt acc m = true →
      (∀ n ∈ xs, strLt n m = true) →
      List.foldl (fun a b => if strLt a b then b else a) acc (xs ++ [m]) = m := by
  intro xs
  induction xs with
  | nil => intro acc ha _; simp [ha]
  | cons x xs ih =>
    intro acc ha hall
    simp only [List.cons_append, List.foldl_cons]
    have hx : strLt x m = true := hall x (List.mem_cons_self _ _)
    have hrest : ∀ n ∈ xs, strLt n m = true := fun n hn => hall n (List.mem_cons_of_mem _ hn)
    by_cases hax : strLt acc x = true
    · rw [if_pos hax]
      exact ih x hx hrest
    · rw [if_neg hax]
      exact ih acc ha hrest

/-- `sorted(...)[-1]` of names all smaller than the appended last one. -/
theorem maxLexStr_append_last (A : List String) (m : String)
    (hall : ∀ n ∈ A, strLt n m = true) :
    maxLexStr (A ++ [m]) = some m := by
  cases A with
  | nil => simp [maxLexStr]
  | cons a A' =>
    simp only [List.cons_append, maxLexStr, Option.some.injEq]
    exact foldl_max_append_last m A' a (hall a (List.mem_cons_self _ _))
      (fun n hn => hall n (List.mem_cons_of_mem _ hn))

/-- The entries of a directory node. -/
def entriesOf : FSNode → FSEntries
  | .file _ => .nil
  | .dir es => es

/-- Preconditions on the pre-snapshot tree: its `snapshots` entry, if
present, is a directory whose snapshot names are all older (smaller) than
the new timestamped name, which is fresh. -/
def snapshotsReady (es : FSEntries) (newName : String) : Prop :=
  match getEntryF "snapshots" es with
  | none => True
  | some (.dir snaps) =>
      getEntryF newName snaps = none ∧ ∀ n ∈ snapshotNames snaps, strLt n newName = true
  | some (.file _) => False

/-- Reverting a tree whose snapshots directory holds older snapshots plus
a freshest one rebuilds the tree from that freshest snapshot, keeping only
the ignored top-level entries. -/
theorem revert_after_snapshot (repo_path newName : String) (es2 snaps0 cEs : FSEntries)
    (hnone : getEntryF newName snaps0 = none)
    (hlt : ∀ n ∈ snapshotNames snaps0, strLt n newName = true)
    (hstart : pyStartsWith newName "snapshot_" = true)
    (hes2 : getEntryF "snapshots" es2 =
      some (.dir (appendF snaps0 (.cons newName (.dir cEs) .nil)))) :
    revert_snapshot repo_path (.dir es2) =
      ("Successfully reverted to " ++ repo_path ++ "/snapshots/" ++ newName,
       .dir (appendF (keepIgnoredF es2) cEs)) := by
  have hnames : snapshotNames (appendF snaps0 (.cons newName (.dir cEs) .nil)) =
      snapshotNames snaps0 ++ [newName] := by
    unfold snapshotNames
    rw [namesF_appendF]
    rw [List.filter_append]
    simp [namesF, hstart]
  have hmax : maxLexStr (snapshotNames (appendF snaps0 (.cons newName (.dir cEs) .nil))) =
      some newName := by
    rw [hnames]
    exact maxLexStr_append_last _ _ hlt
  have hget : getEntryF newName (appendF snaps0 (.cons newName (.dir cEs) .nil)) =
      some (.dir cEs) := by
    rw [getEntryF_appendF]
    rw [hnone]
    simp [getEntryF]
  simp only [revert_snapshot, hes2, hmax, hget]

/-- C8: `save_snapshot` followed by arbitrary changes that leave the
snapshots directory alone (in particular deleting a file) followed by
`revert_snapshot` restores the original content of every file at a
non-ignored path, removes every non-ignored path that did not exist at
snapshot time (files created after the snapshot), and targets the
snapshot directory with the greatest (latest) timestamped name — the one
just saved, all older ones being smaller. -/
theorem snapshot_revert_roundtrip (ts repo_path : String) (es es2 : FSEntries)
    (f : String) (rest : List String) (c : String)
    (hfile : getPath (.dir es) (f :: rest) = some (.file c))
    (hfree : ∀ x ∈ f :: rest, IGNORE.contains x = false)
    (hready : snapshotsReady es ("snapshot_" ++ ts))
    (hes2 : getEntryF "snapshots" es2 =
      getEntryF "snapshots" (entriesOf (save_snapshot ts repo_path (.dir es)).2)) :
    (revert_snapshot repo_path (.dir es2)).1 =
      "Successfully reverted to " ++ repo_path ++ "/snapshots/" ++ ("snapshot_" ++ ts) ∧
    getPath (revert_snapshot repo_path (.dir es2)).2 (f :: rest) = some (.file c) ∧
    (∀ (g : String) (grest : List String), (∀ x ∈ g :: grest, IGNORE.contains x = false) →
      getPath (.dir es) (g :: grest) = none →
      getPath (revert_snapshot repo_path (.dir es2)).2 (g :: grest) = none) := by
  unfold snapshotsReady at hready
  have hrev : revert_snapshot repo_path (.dir es2) =
      ("Successfully reverted to " ++ repo_path ++ "/snapshots/" ++ ("snapshot_" ++ ts),
       .dir (appendF (keepIgnoredF es2) (copyFilteredEntries IGNORE es))) := by
    cases hE : getEntryF "snapshots" es with
    | none =>
      have hsave : (save_snapshot ts repo_path (.dir es)).2 =
          .dir (setEntryF "snapshots"
            (.dir (.cons ("snapshot_" ++ ts) (copyFiltered IGNORE (.dir es)) .nil)) es) := by
        simp [save_snapshot, hE]
      rw [hsave] at hes2
      simp only [entriesOf, getEntryF_setEntryF_self] at hes2
      exact revert_after_snapshot repo_path ("snapshot_" ++ ts) es2 .nil
        (copyFilteredEntries IGNORE es) rfl (by simp [snapshotNames, namesF])
        (pyStartsWith_snapshot ts) hes2
    | some t =>
      rw [hE] at hready
      cases t with
      | file _ => exact absurd hready (by simp)
      | dir snaps =>
        obtain ⟨hnone, hlt⟩ := hready
        have hsave : (save_snapshot ts repo_path (.dir es)).2 =
            .dir (setEntryF "snapshots"
              (.dir (appendF snaps
                (.cons ("snapshot_" ++ ts) (copyFiltered IGNORE (.dir es)) .nil))) es) := by
          simp [save_snapshot, hE, hnone]
        rw [hsave] at hes2
        simp only [entriesOf, getEntryF_setEntryF_self] at hes2
        exact revert_after_snapshot repo_path ("snapshot_" ++ ts) es2 snaps
          (copyFilteredEntries IGNORE es) hnone hlt (pyStartsWith_snapshot ts) hes2
  refine ⟨by rw [hrev], ?_, ?_⟩
  · rw [hrev]
    rw [getPath_append_keep es2 _ f rest (hfree f (List.mem_cons_self _ _))]
    exact getPath_copyFiltered_file IGNORE (f :: rest) (.dir es) c hfree hfile
  · intro g grest hgfree hnone
    rw [hrev]
    rw [getPath_append_keep es2 _ g grest (hgfree g (List.mem_cons_self _ _))]
    exact getPath_copyFiltered_none IGNORE (g :: grest) (.dir es) hgfree hnone

/-- A small repository tree for the snapshot witness. -/
def c8Es : FSEntries :=
  .cons "a.txt" (.file "hello")
    (.cons "src" (.dir (.cons "m.py" (.file "x") .nil)) .nil)

/-- The snapshots directory after saving the witness tree. -/
def c8SnapTree : FSEntries :=
  .cons "snapshot_20250101_000000" (.dir c8Es) .nil

/-- The witness tree after the snapshot: `a.txt` deleted, `new.txt`
created, the snapshots directory untouched. -/
def c8Es2 : FSEntries :=
  .cons "src" (.dir (.cons "m.py" (.file "x") .nil))
    (.cons "new.txt" (.file "n")
      (.cons "snapshots" (.dir c8SnapTree) .nil))

/-- Witness for C8: after snapshotting, deleting `a.txt` and creating
`new.txt`, the revert restores `a.txt` with its original content and
removes `new.txt`, targeting the latest snapshot. -/
theorem snapshot_revert_roundtrip_witness :
    (revert_snapshot "." (.dir c8Es2)).1 =
      "Successfully reverted to " ++ "." ++ "/snapshots/" ++ ("snapshot_" ++ "20250101_000000") ∧
    getPath (revert_snapshot "." (.dir c8Es2)).2 ["a.txt"] = some (.file "hello") ∧
    getPath (revert_snapshot "." (.dir c8Es2)).2 ["new.txt"] = none := by
  have h := snapshot_revert_roundtrip "20250101_000000" "." c8Es c8Es2 "a.txt" [] "hello"
    rfl (by decide) trivial rfl
  exact ⟨h.1, h.2.1, h.2.2 "new.txt" [] (by decide) rfl⟩

/-- Re-setting a key to the value it already holds leaves the field list
unchanged. -/
theorem objSet_lookup_self (k : String) (v : JVal) :
    ∀ fs, objLookup k fs = some v → objSet k v fs = fs := by
  intro fs
  induction fs with
  | nil => intro h; exact absurd h (by simp [objLookup])
  | cons kv rest ih =>
    obtain ⟨k', v'⟩ := kv
    intro h
    by_cases hk : (k' == k) = true
    · simp only [objLookup, hk, if_true] at h
      injection h with h1
      subst h1
      have : k' = k := beq_iff_eq.mp hk
      simp [objSet, hk, this]
    · simp only [objLookup, hk, if_false] at h
      simp [objSet, hk, ih h]

/-- The candidate scan is the identity when no entry's id matches. -/
theorem updCandidates_miss (nowIso : String) (hid : JVal) (updates : List (String × JVal)) :
    ∀ cs : List JVal,
      (∀ e ∈ cs, ∃ g, e = .obj g) →
      (∀ g, (JVal.obj g) ∈ cs → pyEq (objGetD "id" .null g) hid = false) →
      updCandidates nowIso hid updates cs = .ok cs := by
  intro cs
  induction cs with
  | nil => intro _ _; rfl
  | cons e t ih =>
    intro hshape hmiss
    obtain ⟨g, rfl⟩ := hshape e (List.mem_cons_self _ _)
    have hm := hmiss g (List.mem_cons_self _ _)
    have ht := ih (fun x hx => hshape x (List.mem_cons_of_mem _ hx))
      (fun g' hg' => hmiss g' (List.mem_cons_of_mem _ hg'))
    simp [updCandidates, hm, ht, Except.map]

/-- C9: `update_hypothesis` with an id present in no candidate leaves the
hypotheses store value (entry count and content, with no update stamp)
unchanged, raising nothing. -/
theorem update_hypothesis_miss_noop (nowIso : String) (hid : JVal)
    (updates : List (String × JVal)) (fs : List (String × JVal)) (cs : List JVal)
    (hc : objLookup "candidates" fs = some (.arr cs))
    (hshape : ∀ e ∈ cs, ∃ g, e = .obj g)
    (hmiss : ∀ g, (JVal.obj g) ∈ cs → pyEq (objGetD "id" .null g) hid = false) :
    update_hypothesis nowIso hid updates (.obj fs) = .ok (.obj fs) := by
  simp only [update_hypothesis, hc, updCandidates_miss nowIso hid updates cs hshape hmiss,
    Except.map, objSet_lookup_self "candidates" (.arr cs) fs hc]

/-- Witness for C9: a store with one candidate and a missing id. -/
theorem update_hypothesis_miss_noop_witness :
    update_hypothesis "t9" (.str "hyp_absent") [("plan", .str "p")]
      (.obj [("entries", .arr []), ("candidates", .arr [.obj [("id", .str "hyp_present")]])]) =
      .ok (.obj [("entries", .arr []), ("candidates", .arr [.obj [("id", .str "hyp_present")]])]) := by
  apply update_hypothesis_miss_noop "t9" (.str "hyp_absent") [("plan", .str "p")]
    [("entries", .arr []), ("candidates", .arr [.obj [("id", .str "hyp_present")]])]
    [.obj [("id", .str "hyp_present")]] rfl
  · intro e he
    rcases List.mem_singleton.mp he with rfl
    exact ⟨_, rfl⟩
  · intro g hg
    have : (JVal.obj g) = .obj [("id", .str "hyp_present")] := List.mem_singleton.mp hg
    injection this with h1
    subst h1
    simp [objGetD, objLookup, pyEq]

/-- C10 counterexample: a hypotheses store file holding valid JSON of the
wrong shape (`[]`, a list rather than an object) makes the reader
`get_completed_hypotheses` raise `AttributeError` (from `data.get`)
instead of degrading to an empty default. -/
theorem reader_raises_on_wrong_shape_counterexample :
    json_loads "[]" = some (.arr []) ∧
    get_completed_hypotheses (some "[]") = .error .attributeError ∧
    get_successful_results (some "[]") = .error .attributeError ∧
    get_pitfalls_summary (some "[]") = .error .attributeError :=
  ⟨rfl, rfl, rfl, rfl⟩

/-- A backing file that is missing, empty, or not valid JSON. -/
def store_degenerate (c : Option String) : Prop :=
  c = none ∨ ∃ s, c = some s ∧ json_loads s = none

/-- A degenerate backing file reads as the default store value. -/
theorem ep_read_file_degenerate (c : Option String) (h : store_degenerate c) :
    ep_read_file c = default_store := by
  rcases h with rfl | ⟨s, rfl, hs⟩
  · rfl
  · simp [ep_read_file, hs]

/-- C10 (amended): for every store whose backing file is missing, empty,
or unparseable, each reader degrades that store to its empty default and
raises nothing (and `get_all_context` is total by construction); but a
backing file holding parseable JSON of the wrong shape can make the
filtering readers raise, per the counterexample. -/
theorem readers_degrade_on_unreadable_stores (f : StoreFiles)
    (hb : store_degenerate f.breakthroughs) (hh : store_degenerate f.hypotheses)
    (hp : store_degenerate f.pitfalls) (hl : store_degenerate f.logs)
    (hr : store_degenerate f.results) :
    get_all_context f = .obj
      [ ("breakthroughs", default_store), ("hypotheses", default_store)
      , ("pitfalls", default_store), ("logs", default_store), ("results", default_store) ] ∧
    get_completed_hypotheses f.hypotheses = .ok [] ∧
    get_successful_results f.results = .ok [] ∧
    get_pitfalls_summary f.pitfalls = .ok (.arr []) ∧
    get_breakthroughs_summary f.breakthroughs = .ok (.arr []) := by
  have eb := ep_read_file_degenerate _ hb
  have eh := ep_read_file_degenerate _ hh
  have ep := ep_read_file_degenerate _ hp
  have el := ep_read_file_degenerate _ hl
  have er := ep_read_file_degenerate _ hr
  refine ⟨?_, ?_, ?_, ?_, ?_⟩
  · simp [get_all_context, eb, eh, ep, el, er]
  · simp [get_completed_hypotheses, eh, default_store, pyGetD, objGetD, objLookup,
      pyIterate, filterCompleted, Bind.bind, Except.bind, pure, Except.pure]
  · simp [get_successful_results, er, default_store, pyGetD, objGetD, objLookup,
      pyIterate, filterAcceptedResults, Bind.bind, Except.bind, pure, Except.pure]
  · simp [get_pitfalls_summary, ep, default_store, pyGetD, objGetD, objLookup]
  · simp [get_breakthroughs_summary, eb, default_store, pyGetD, objGetD, objLookup]

/-- Witness for C10 (amended): all five backing files missing. -/
theorem readers_degrade_on_unreadable_stores_witness :
    get_all_context ⟨none, none, none, none, none⟩ = .obj
      [ ("breakthroughs", default_store), ("hypotheses", default_store)
      , ("pitfalls", default_store), ("logs", default_store), ("results", default_store) ] ∧
    get_completed_hypotheses none = .ok [] ∧
    get_successful_results none = .ok [] ∧
    get_pitfalls_summary none = .ok (.arr []) ∧
    get_breakthroughs_summary none = .ok (.arr []) :=
  readers_degrade_on_unreadable_stores ⟨none, none, none, none, none⟩
    (Or.inl rfl) (Or.inl rfl) (Or.inl rfl) (Or.inl rfl) (Or.inl rfl)
